import Mathlib

/-!
# busygo: resolution, dispatch and usage formatting

A shallow embedding of `busygo.go` (the multi-call dispatcher) and of the
visitor of `generate/gen.go` (the source scanner).

Conventions of the embedding

* A Go `string` is a Lean `String`, read as its sequence of runes
  (`String.data`); only valid UTF-8 text is represented.
* A Go slice that may be `nil` is an `Option (List _)`, `none` being `nil`.
* An `error` is `Option String`: `none` is `nil`, `some m` an error whose
  message is `m`.
* Functions of the Go standard library whose result is a table lookup or
  depends on the host (`unicode.ToLower`, `unicode.IsUpper`, `strconv.Quote`,
  `filepath.Base`, `filepath.Abs`, `flag.Parse`, `flag.PrintDefaults`) are
  parameters.  The small, fixed ones (`strings.Split`, `strings.Join`,
  `strings.Fields`, `strings.HasPrefix`, ...) are defined here.
-/

namespace Busygo

/-! ## The `strings` package -/

namespace strings

/-- Go `unicode.IsSpace`: the runes of the Unicode `White_Space` property. -/
def isSpace (c : Char) : Bool :=
  let n := c.toNat
  (0x09 ≤ n && n ≤ 0x0D) || n == 0x20 || n == 0x85 || n == 0xA0 || n == 0x1680 ||
  (0x2000 ≤ n && n ≤ 0x200A) || n == 0x2028 || n == 0x2029 || n == 0x202F ||
  n == 0x205F || n == 0x3000

/-- Worker of `Split` on rune lists.  `skip` counts the runes of a separator
occurrence still to be dropped, `cur` holds the current piece reversed. -/
def splitAux (sep : List Char) : Nat → List Char → List Char → List (List Char)
  | _, cur, [] => [cur.reverse]
  | skip + 1, cur, _ :: cs => splitAux sep skip cur cs
  | 0, cur, c :: cs =>
    if sep.isPrefixOf (c :: cs) then cur.reverse :: splitAux sep (sep.length - 1) [] cs
    else splitAux sep 0 (c :: cur) cs

/-- Go `strings.Split(s, sep)`: the pieces of `s` between the leftmost,
non-overlapping occurrences of `sep`; with an empty `sep` the runes of `s`. -/
def Split (s sep : String) : List String :=
  if sep.data = [] then s.data.map (fun c => String.mk [c])
  else (splitAux sep.data 0 [] s.data).map String.mk

/-- Go `strings.Join(elems, sep)`. -/
def Join (elems : List String) (sep : String) : String :=
  String.mk (List.intercalate sep.data (elems.map String.data))

/-- Go `strings.HasPrefix(s, p)`. -/
def HasPrefix (s p : String) : Bool := p.data.isPrefixOf s.data

/-- Go `strings.HasSuffix(s, p)`. -/
def HasSuffix (s p : String) : Bool := p.data.isSuffixOf s.data

/-- Go `strings.ContainsRune(s, r)`. -/
def ContainsRune (s : String) (r : Char) : Bool := s.data.contains r

/-- Go `strings.TrimLeft(s, cutset)`: `s` without its leading runes that
occur in `cutset`. -/
def TrimLeft (s cutset : String) : String :=
  String.mk (s.data.dropWhile (fun c => cutset.data.contains c))

/-- Go `strings.ToLower(s)`, rune by rune through `lc`, which stands for
`unicode.ToLower`. -/
def ToLower (lc : Char → Char) (s : String) : String := String.mk (s.data.map lc)

/-- Worker of `Fields` on rune lists; `cur` holds the current field reversed. -/
def fieldsAux : List Char → List Char → List (List Char)
  | cur, [] => if cur = [] then [] else [cur.reverse]
  | cur, c :: cs =>
    if isSpace c then
      (if cur = [] then fieldsAux [] cs else cur.reverse :: fieldsAux [] cs)
    else fieldsAux (c :: cur) cs

/-- Go `strings.Fields(s)`: the maximal runs of non-space runes of `s`. -/
def Fields (s : String) : List String := (fieldsAux [] s.data).map String.mk

/-- Go `strings.TrimSpace(s)`: `s` without its leading and trailing white
space. -/
def TrimSpace (s : String) : String :=
  String.mk ((s.data.dropWhile isSpace).reverse.dropWhile isSpace).reverse

end strings

/-- The lowercase map on ASCII letters; `unicode.ToLower` agrees with it on
every ASCII rune. -/
def asciiLower (c : Char) : Char :=
  if 65 ≤ c.toNat ∧ c.toNat ≤ 90 then Char.ofNat (c.toNat + 32) else c

/-! ## The library environment -/

/-- The functions of the Go standard library and of the host that the
dispatcher calls and that are not defined here. -/
structure Lib where
  /-- Go `unicode.ToLower`. -/
  lc : Char → Char
  /-- Go `strconv.Quote`, the rendering of a string under the verb `%q`. -/
  quote : String → String
  /-- Go `filepath.Base`. -/
  base : String → String
  /-- Go `filepath.Abs`: the absolute path, or the message of the error. -/
  abs : String → Except String String
  /-- Go `flag.Parse` on `os.Args[1:]`; the flag tells whether `-f` is defined.
  The result is `none` when `flag.Parse` ends the process itself, and
  otherwise the value given to `-f` (`""` when it is not set) and `flag.Args()`. -/
  flagParse : Bool → List String → Option (String × List String)
  /-- The text `flag.PrintDefaults` writes to the standard error stream; the
  flag tells whether `-f` is defined. -/
  flagDefaults : Bool → String

/-! ## `busygo.go` -/

/-- Go `const baseName`. -/
def baseName : String := "busygo"

/-- Go `type function func([]string) ([]string, error)`. -/
abbrev function := List String → Option (List String) × Option String

/-- The function values stored in the registry, by name. -/
inductive FuncRef where
  | filepath_Abs | filepath_Base | filepath_Clean | filepath_Dir
  | filepath_EvalSymlinks | filepath_Ext | filepath_FromSlash | filepath_Glob
  | filepath_HasPrefix | filepath_IsAbs | filepath_Join | filepath_Match
  | filepath_Rel | filepath_Split | filepath_SplitList | filepath_ToSlash
  | filepath_VolumeName
  deriving DecidableEq, Repr

/-- Go `type functionProp struct`. -/
structure functionProp where
  name : String
  argp : String
  arep : Bool
  retp : String
  fref : FuncRef
  deriving DecidableEq, Repr

/-- One element of the Go variable `functions`: a package path and the
functions registered under it. -/
structure Package where
  pkg : List String
  prop : List functionProp
  deriving DecidableEq, Repr

/-- Go `var functions`. -/
def functions : List Package :=
  [ { pkg := ["path", "filepath"],
      prop := [
        { name := "Abs", argp := "path string", arep := true,
          retp := "string, error", fref := .filepath_Abs },
        { name := "Base", argp := "path string", arep := false,
          retp := "string", fref := .filepath_Base },
        { name := "Clean", argp := "path string", arep := false,
          retp := "string", fref := .filepath_Clean },
        { name := "Dir", argp := "path string", arep := false,
          retp := "string", fref := .filepath_Dir },
        { name := "EvalSymlinks", argp := "path string", arep := false,
          retp := "string, error", fref := .filepath_EvalSymlinks },
        { name := "Ext", argp := "path string", arep := false,
          retp := "string", fref := .filepath_Ext },
        { name := "FromSlash", argp := "path string", arep := false,
          retp := "string", fref := .filepath_FromSlash },
        { name := "Glob", argp := "pattern string", arep := false,
          retp := "matches []string, err error", fref := .filepath_Glob },
        { name := "HasPrefix", argp := "p, prefix string", arep := false,
          retp := "bool", fref := .filepath_HasPrefix },
        { name := "IsAbs", argp := "path string", arep := false,
          retp := "bool", fref := .filepath_IsAbs },
        { name := "Join", argp := "elem ...string", arep := false,
          retp := "string", fref := .filepath_Join },
        { name := "Match", argp := "pattern, name string", arep := false,
          retp := "matched bool, err error", fref := .filepath_Match },
        { name := "Rel", argp := "basepath, targpath string", arep := false,
          retp := "string, error", fref := .filepath_Rel },
        { name := "Split", argp := "path string", arep := false,
          retp := "dir, file string", fref := .filepath_Split },
        { name := "SplitList", argp := "path string", arep := false,
          retp := "[]string", fref := .filepath_SplitList },
        { name := "ToSlash", argp := "path string", arep := false,
          retp := "string", fref := .filepath_ToSlash },
        { name := "VolumeName", argp := "path string", arep := false,
          retp := "string", fref := .filepath_VolumeName } ] } ]

/-- Go `func formatList(s string) (string, string)`. -/
def formatList (s : String) : String × String :=
  if strings.HasPrefix s "[]" || strings.HasPrefix s "..." then
    (strings.TrimLeft s "[].", "...")
  else (s, "")

/-- Go `func formatArg(s string) []string`. -/
def formatArg (s : String) : List String :=
  let f := strings.Fields s
  let ne : String × String :=
    match f with
    | [f0] => formatList f0
    | [f0, f1] => (f0, (formatList f1).2)
    | _ => ("", "")
  let a := [ne.1]
  if ne.2 ≠ "" then a ++ [ne.2] else a

/-- The loop shared by `args` and `returns`: the tokens of every piece of a
signature, appended in order (a piece that formats to no token adds none). -/
def formatAll : List String → List String
  | [] => []
  | a :: rest =>
    let f := formatArg a
    (if f.length > 0 then f else []) ++ formatAll rest

/-- Go `func (p *functionProp) args() []string`. -/
def functionProp.args (p : functionProp) : List String :=
  let arg := formatAll (strings.Split p.argp ", ")
  if p.arep then arg ++ ["[...]"] else arg

/-- Go `func (p *functionProp) returns() []string`. -/
def functionProp.returns (p : functionProp) : List String :=
  formatAll (strings.Split p.retp ", ")

/-- Go `func (p functionProp) String() string`. -/
def functionProp.String (p : functionProp) : String :=
  let retp := if strings.ContainsRune p.retp ',' then "(" ++ p.retp ++ ")" else p.retp
  "func " ++ p.name ++ "(" ++ p.argp ++ ") " ++ retp

/-- The inner loop of `resolve`: the first function of a package whose
lowercased name is `name`. -/
def lookupName (lc : Char → Char) (name : String) : List functionProp → Option functionProp
  | [] => none
  | p :: ps => if strings.ToLower lc p.name = name then some p else lookupName lc name ps

/-- The outer loop of `resolve` over the registry, for a lowercased function
name and a lowercased package filter. -/
def resolveIn (lc : Char → Char) (name pkg : String) :
    List Package → String × Option functionProp × Bool
  | [] => ("", none, false)
  | f :: fs =>
    let fpkg := strings.ToLower lc (strings.Join f.pkg "/")
    if "" = pkg ∨ strings.HasSuffix fpkg pkg = true then
      match lookupName lc name f.prop with
      | some p => (fpkg, some p, true)
      | none => resolveIn lc name pkg fs
    else resolveIn lc name pkg fs

/-- The function name and the package filter `resolve` reads off the pieces
of its query, before lowercasing; `none` when there is no piece. -/
def nameAndPkg (path : List String) : Option (String × String) :=
  match path with
  | [] => none
  | [n] => some (n, "")
  | _ =>
    let nameIndex := path.length - 1
    some (path.getD nameIndex "", strings.Join (path.take nameIndex) "/")

/-- Go `func resolve(s string) (string, *functionProp, bool)`. -/
def resolve (lc : Char → Char) (s : String) : String × Option functionProp × Bool :=
  match nameAndPkg (strings.Split s ".") with
  | none => ("", none, false)
  | some (name, pkg) =>
    resolveIn lc (strings.ToLower lc name) (strings.ToLower lc pkg) functions

/-- The loop of `filepath_Abs`: `ret` holds the results so far. -/
def filepath_AbsLoop (abs : String → Except String String) :
    List String → List String → Option (List String) × Option String
  | ret, [] => (some ret, none)
  | ret, p :: rest =>
    match abs p with
    | .error err => (none, some err)
    | .ok a => filepath_AbsLoop abs (ret ++ [a]) rest

/-- Go `func filepath_Abs(in []string) ([]string, error)`. -/
def filepath_Abs (abs : String → Except String String) : function :=
  fun xs => filepath_AbsLoop abs [] xs

/-- Go `func filepath_Base(in []string) ([]string, error)`. -/
def filepath_Base : function := fun _ => (some [], none)

/-- Go `func filepath_Clean(in []string) ([]string, error)`. -/
def filepath_Clean : function := fun _ => (some [], none)

/-- Go `func filepath_Dir(in []string) ([]string, error)`. -/
def filepath_Dir : function := fun _ => (some [], none)

/-- Go `func filepath_EvalSymlinks(in []string) ([]string, error)`. -/
def filepath_EvalSymlinks : function := fun _ => (some [], none)

/-- Go `func filepath_Ext(in []string) ([]string, error)`. -/
def filepath_Ext : function := fun _ => (some [], none)

/-- Go `func filepath_FromSlash(in []string) ([]string, error)`. -/
def filepath_FromSlash : function := fun _ => (some [], none)

/-- Go `func filepath_Glob(in []string) ([]string, error)`. -/
def filepath_Glob : function := fun _ => (some [], none)

/-- Go `func filepath_HasPrefix(in []string) ([]string, error)`. -/
def filepath_HasPrefix : function := fun _ => (some [], none)

/-- Go `func filepath_IsAbs(in []string) ([]string, error)`. -/
def filepath_IsAbs : function := fun _ => (some [], none)

/-- Go `func filepath_Join(in []string) ([]string, error)`. -/
def filepath_Join : function := fun _ => (some [], none)

/-- Go `func filepath_Match(in []string) ([]string, error)`. -/
def filepath_Match : function := fun _ => (some [], none)

/-- Go `func filepath_Rel(in []string) ([]string, error)`. -/
def filepath_Rel : function := fun _ => (some [], none)

/-- Go `func filepath_Split(in []string) ([]string, error)`. -/
def filepath_Split : function := fun _ => (some [], none)

/-- Go `func filepath_SplitList(in []string) ([]string, error)`. -/
def filepath_SplitList : function := fun _ => (some [], none)

/-- Go `func filepath_ToSlash(in []string) ([]string, error)`. -/
def filepath_ToSlash : function := fun _ => (some [], none)

/-- Go `func filepath_VolumeName(in []string) ([]string, error)`. -/
def filepath_VolumeName : function := fun _ => (some [], none)

/-- The Go function a registry reference stands for. -/
def FuncRef.call (abs : String → Except String String) : FuncRef → function
  | .filepath_Abs => Busygo.filepath_Abs abs
  | .filepath_Base => Busygo.filepath_Base
  | .filepath_Clean => Busygo.filepath_Clean
  | .filepath_Dir => Busygo.filepath_Dir
  | .filepath_EvalSymlinks => Busygo.filepath_EvalSymlinks
  | .filepath_Ext => Busygo.filepath_Ext
  | .filepath_FromSlash => Busygo.filepath_FromSlash
  | .filepath_Glob => Busygo.filepath_Glob
  | .filepath_HasPrefix => Busygo.filepath_HasPrefix
  | .filepath_IsAbs => Busygo.filepath_IsAbs
  | .filepath_Join => Busygo.filepath_Join
  | .filepath_Match => Busygo.filepath_Match
  | .filepath_Rel => Busygo.filepath_Rel
  | .filepath_Split => Busygo.filepath_Split
  | .filepath_SplitList => Busygo.filepath_SplitList
  | .filepath_ToSlash => Busygo.filepath_ToSlash
  | .filepath_VolumeName => Busygo.filepath_VolumeName

/-- What a run has written to the two standard streams. -/
structure Output where
  stdout : String
  stderr : String
  deriving DecidableEq, Repr

/-- Nothing written. -/
def Output.empty : Output := ⟨"", ""⟩

/-- The writes of `a` followed by the writes of `b`. -/
def Output.append (a b : Output) : Output := ⟨a.stdout ++ b.stdout, a.stderr ++ b.stderr⟩

/-- How a run of `main` ends: it returns from `main`; or it aborts with the
run-time error of reading a field through a nil `*functionProp`; or
`flag.Parse` ends the process before `main` goes on. -/
inductive Exit where
  | returned
  | nilDereference
  | inFlagParse
  deriving DecidableEq, Repr

/-- The lines `printUsage` prints for one package in the general usage. -/
def usagePackage (L : Lib) (f : Package) : String :=
  "\tpackage " ++ L.quote (strings.Join f.pkg "/") ++ "\n" ++
    String.join (f.prop.map (fun p => "\t\t" ++ p.String ++ "\n"))

/-- The general usage `printUsage` writes under the name `as`: the heading
and the catalogue on the standard output, the flag defaults on the standard
error. -/
def generalUsage (L : Lib) (fDefined : Bool) (as : String) : Output :=
  { stdout := "Usage of " ++ as ++ ":\n" ++
      "\nThe following library functions are supported:\n" ++
      String.join (functions.map (usagePackage L)),
    stderr := L.flagDefaults fDefined }

/-- Go `func printUsage(as string)`; `fDefined` tells whether the flag `-f`
has been defined, which decides what `flag.PrintDefaults` writes.  The last
branch is the read of `prop.name` through a nil `prop`; it is never taken,
since `resolve` returns an entry whenever it reports `ok`. -/
def printUsage (L : Lib) (fDefined : Bool) (as : String) : Output :=
  match resolve L.lc as with
  | (pkg, prop, ok) =>
    if as = baseName ∨ ok = false then generalUsage L fDefined as
    else
      match prop with
      | some prop =>
        let name := strings.ToLower L.lc prop.name
        { stdout := "Usage of (" ++ L.quote pkg ++ ") " ++ name ++ ":\n" ++
            "\t" ++ name ++ " " ++ strings.Join prop.args " " ++ "\n" ++
            (if prop.returns.length > 0 then
              "\t\treturns: " ++ strings.Join prop.returns ", " ++ "\n" else ""),
          stderr := "" }
      | none => Output.empty

/-- Lines 201 to 209 of `main`: what is written for the pair `(res, err)` an
implementation has returned. -/
def render (res : Option (List String)) (err : Option String) : Output :=
  { stderr := match err with
      | some e => e ++ "\n"
      | none => "",
    stdout := match res with
      | some r => if r.length > 0 then strings.Join r " " ++ "\n" else ""
      | none => "" }

/-- Lines 192 to 195 of `main`: the function name `fn` and the raw argument
list `fa`, from `invokedAs`, `argf`, `flag.Args()` and `os.Args[1:]`. -/
def dispatchKey (invokedAs argf : String) (flagArgs rest : List String) :
    String × List String :=
  if "" ≠ argf then (argf, flagArgs) else (invokedAs, rest)

/-- Go `func main()`, for the process arguments `arg0 :: rest`.  The variable
`argf` is bound to the flag `-f` only when the process runs as `baseName`, and
is `""` otherwise. -/
def main (L : Lib) (arg0 : String) (rest : List String) : Output × Exit :=
  let invokedAs := L.base arg0
  let fDefined : Bool := invokedAs = baseName
  match L.flagParse fDefined rest with
  | none => (Output.empty, Exit.inFlagParse)
  | some (v, flagArgs) =>
    let argf := if fDefined then v else ""
    let fnfa := dispatchKey invokedAs argf flagArgs rest
    match resolve L.lc fnfa.1 with
    | (_, prop, ok) =>
      let usage := if ok = false then printUsage L fDefined baseName else Output.empty
      match prop with
      | none => (usage, Exit.nilDereference)
      | some p =>
        let r := p.fref.call L.abs fnfa.2
        (usage.append (render r.1 r.2), Exit.returned)

/-- A library environment for concrete runs: ASCII lowercasing, quoting that
only adds the quotation marks, the identity for `filepath.Base`, a working
directory `/abs` for `filepath.Abs`, and a `flag.Parse` that returns only for
argument lists without a dash-led argument, possibly after a leading
`-f value`.  It is used on plain ASCII names without a separator or a
special character, where it agrees with the Go library. -/
def sampleLib : Lib where
  lc := asciiLower
  quote s := "\"" ++ s ++ "\""
  base s := s
  abs p := if strings.HasPrefix p "/" then .ok p else .ok ("/abs/" ++ p)
  flagParse fDefined xs :=
    match fDefined, xs with
    | true, "-f" :: v :: ys =>
      if ys.any (fun a => strings.HasPrefix a "-") then none else some (v, ys)
    | _, ys => if ys.any (fun a => strings.HasPrefix a "-") then none else some ("", ys)
  flagDefaults fDefined := if fDefined then "  -f func\n    \tinvoke function named func\n" else ""

/-- Every function of the registry, in registration order. -/
def registered : List functionProp := functions.flatMap (fun f => f.prop)

/-- Whether every rune of `s` is an ASCII rune. -/
def asciiOnly (s : String) : Bool := s.data.all (fun c => decide (c.toNat < 128))

/-- The lookup of `resolve` for the pieces of a query that are already
lowercased. -/
def resolveSegs (lc : Char → Char) (path : List String) :
    String × Option functionProp × Bool :=
  match nameAndPkg path with
  | none => ("", none, false)
  | some (name, pkg) => resolveIn lc name pkg functions

/-- Lines 197 to 209 of `main`: resolution of the function name `fn` and the
call of its implementation on `fa`. -/
def dispatch (L : Lib) (fDefined : Bool) (fn : String) (fa : List String) : Output × Exit :=
  match resolve L.lc fn with
  | (_, prop, ok) =>
    let usage := if ok = false then printUsage L fDefined baseName else Output.empty
    match prop with
    | none => (usage, Exit.nilDereference)
    | some p =>
      let r := p.fref.call L.abs fa
      (usage.append (render r.1 r.2), Exit.returned)

end Busygo

/-! ## `generate/gen.go`: the visitor of the source scanner -/

namespace Generate

/-- Go `type variadic int` with its constants `none`, `array`, `ellipses`. -/
inductive variadic where
  | none
  | array
  | ellipses
  deriving DecidableEq, Repr

/-- Go `type argument struct`. -/
structure argument where
  list : variadic
  kind : String
  deriving DecidableEq, Repr

/-- Go `type returns struct`. -/
structure returns where
  list : variadic
  kind : String
  deriving DecidableEq, Repr

/-- Go `type function struct`. -/
structure function where
  name : String
  args : List argument
  rets : List returns
  deriving DecidableEq, Repr

/-- Go `type funcVisitor struct`. -/
structure funcVisitor where
  funcs : List function
  deriving DecidableEq, Repr

/-- The type expressions of `go/ast` as far as the visitor tells them apart:
`*ast.Ident`, `*ast.ArrayType` (its element), `*ast.Ellipsis` (its element),
and the other kinds of expression. -/
inductive Expr where
  | Ident (name : String)
  | ArrayType (elt : Expr)
  | Ellipsis (elt : Expr)
  | StarExpr (x : Expr)
  | SelectorExpr (x : Expr) (sel : String)
  | MapType (key value : Expr)
  | ChanType (value : Expr)
  | FuncType
  | StructType
  | InterfaceType
  deriving DecidableEq, Repr

/-- Go `ast.Field`: the names declared together and their common type. -/
structure Field where
  names : List String
  type : Expr
  deriving DecidableEq, Repr

/-- Go `ast.FuncDecl` as far as the visitor reads it: `Name.Name`,
`Type.Params` and `Type.Results`, each field list `none` when it is nil. -/
structure FuncDecl where
  name : String
  params : Option (List Field)
  results : Option (List Field)
  deriving DecidableEq, Repr

/-- Go `ast.Node`: a function declaration, or a node of any other kind. -/
inductive Node where
  | FuncDecl (o : Generate.FuncDecl)
  | other
  deriving DecidableEq, Repr

/-- Go `(*ast.Ident).IsExported`: whether the first rune of the name is an
upper-case letter; `isUpper` stands for `unicode.IsUpper`. -/
def IsExported (isUpper : Char → Bool) (name : String) : Bool :=
  match name.data with
  | [] => false
  | c :: _ => isUpper c

/-- The loop over `o.Type.Params.List` in `Visit` (lines 81 to 96). -/
def paramArgs : List Field → List argument
  | [] => []
  | f :: fs =>
    (match f.type with
      | .Ident t => [{ list := variadic.none, kind := t }]
      | .ArrayType (.Ident e) => [{ list := variadic.array, kind := e }]
      | .Ellipsis (.Ident e) => [{ list := variadic.ellipses, kind := e }]
      | _ => []) ++ paramArgs fs

/-- The loop over `o.Type.Results.List` in `Visit` (lines 100 to 111); the
line it prints for each field is left out. -/
def resultRets : List Field → List returns
  | [] => []
  | f :: fs =>
    (match f.type with
      | .Ident t => [{ list := variadic.none, kind := t }]
      | .ArrayType (.Ident e) => [{ list := variadic.array, kind := e }]
      | _ => []) ++ resultRets fs

/-- The value `cf` that `Visit` builds for an exported declaration. -/
def signature (o : FuncDecl) : function :=
  { name := o.name,
    args := match o.params with
      | some l => paramArgs l
      | none => [],
    rets := match o.results with
      | some l => resultRets l
      | none => [] }

/-- Go `func (v *funcVisitor) Visit(n ast.Node) ast.Visitor`: `none` for the
nil result, and otherwise the visitor in its new state. -/
def Visit (isUpper : Char → Bool) (v : funcVisitor) (n : Option Node) : Option funcVisitor :=
  match n with
  | none => none
  | some (.FuncDecl o) =>
    if IsExported isUpper o.name then some { funcs := v.funcs ++ [signature o] }
    else some v
  | some .other => some v

/-- The visitor after `Visit` has been called on each node of a list in turn,
as `ast.Walk` does with the nodes of a package. -/
def visitAll (isUpper : Char → Bool) : funcVisitor → List Node → funcVisitor
  | v, [] => v
  | v, n :: ns =>
    match Visit isUpper v (some n) with
    | some w => visitAll isUpper w ns
    | none => visitAll isUpper v ns

/-- The signature of a node when it is an exported function declaration. -/
def recorded (isUpper : Char → Bool) : Node → Option function
  | .FuncDecl o => if IsExported isUpper o.name then some (signature o) else none
  | .other => none

/-- The upper-case ASCII letters; `unicode.IsUpper` agrees with it on every
ASCII rune. -/
def asciiUpper (c : Char) : Bool := decide (65 ≤ c.toNat ∧ c.toNat ≤ 90)

/-- The declaration `func Join(elem ...string) string`. -/
def declJoin : FuncDecl :=
  { name := "Join",
    params := some [{ names := ["elem"], type := .Ellipsis (.Ident "string") }],
    results := some [{ names := [], type := .Ident "string" }] }

/-- The declaration `func helper() int`. -/
def declHelper : FuncDecl :=
  { name := "helper",
    params := some [],
    results := some [{ names := [], type := .Ident "int" }] }

/-- Whether the type switch of `Visit` records an argument for a parameter of
type `t`: an identifier, an array of an identifier, an ellipsis of an
identifier. -/
def classified (t : Expr) : Bool :=
  match t with
  | .Ident _ => true
  | .ArrayType (.Ident _) => true
  | .Ellipsis (.Ident _) => true
  | _ => false

/-- Go `(*ast.FieldList).NumFields`: the number of parameters a field list
declares, a field without a name counting for one. -/
def numParams (l : List Field) : Nat :=
  (l.map (fun f => if f.names.length = 0 then 1 else f.names.length)).sum

/-- The declaration `func HasPrefix(p, prefix string) bool`. -/
def declHasPrefix : FuncDecl :=
  { name := "HasPrefix",
    params := some [{ names := ["p", "prefix"], type := .Ident "string" }],
    results := some [{ names := [], type := .Ident "bool" }] }

/-- Go `os.FileInfo` as far as `fileExists` reads it. -/
structure FileInfo where
  isDir : Bool
  deriving DecidableEq, Repr

/-- An `error` returned by `os.Stat`: its message and what `os.IsNotExist`
answers for it. -/
structure OsError where
  msg : String
  isNotExist : Bool
  deriving DecidableEq, Repr

/-- The functions of the Go standard library and of the host that the
generator calls and that are not defined here. -/
structure Host where
  /-- Go `os.Stat`: the pair `(stat, err)` it returns, `none` for nil. -/
  stat : String → Option FileInfo × Option OsError
  /-- Go `filepath.Join`. -/
  join : List String → String
  /-- Go `parser.ParseDir` followed by `ast.Walk` over the packages found: the
  nodes handed to `Visit`, in order, or the message of the parse error. -/
  parseDir : String → Except String (List Node)
  /-- Go `strconv.Quote`, the rendering of a string under the verb `%q`. -/
  quote : String → String
  /-- Go `unicode.IsUpper`. -/
  isUpper : Char → Bool
  /-- Go `unicode.IsLetter`. -/
  isLetter : Char → Bool
  /-- Go `unicode.IsDigit`. -/
  isDigit : Char → Bool

/-- Go `func fileExists(path string) (exists, isDir bool)`.  The result is
`none` when the call `stat.IsDir()` is made on a nil `stat`, which aborts the
process with a run-time error. -/
def fileExists (H : Host) (path : String) : Option (Bool × Bool) :=
  match H.stat path with
  | (stat, err) =>
    let fexists : Bool :=
      match err with
      | none => true
      | some e => !e.isNotExist
    if fexists then
      match stat with
      | some fi => some (fexists, fi.isDir)
      | none => none
    else some (fexists, false)

/-- Go `type PackageList []string`. -/
abbrev PackageList := List String

/-- The closure `validPackageRune` of `Set`. -/
def validPackageRune (H : Host) (c : Char) : Bool :=
  H.isLetter c || H.isDigit c || c == '/'

/-- The closure `validPackage` of `Set`. -/
def validPackage (H : Host) (s : String) : Bool :=
  s.data.all (validPackageRune H)

/-- Go `func (p *PackageList) Set(value string) error`: the list after the
call and the error returned. -/
def PackageList.Set (H : Host) (p : PackageList) (value : String) :
    PackageList × Option String :=
  if Busygo.strings.TrimSpace value = "" then (p, some "(empty)")
  else if !validPackage H value then (p, some ("package name: " ++ H.quote value))
  else if p.any (fun k => decide (k = value)) then
    (p, some ("duplicate name: " ++ H.quote value))
  else (p ++ [value], none)

/-- Go `func (p *PackageList) withPrefix(prefix ...string) []string`. -/
def PackageList.withPrefix (H : Host) (p : PackageList) (pfx : List String) : List String :=
  let x := H.join pfx
  p.map (fun s => H.join [x, s])

/-- How a call of `parse` ends: it returns an error or nil, or it aborts in
`fileExists` with the run-time error of the nil `stat`. -/
inductive End where
  | returned (err : Option String)
  | nilDereference
  deriving DecidableEq, Repr

/-- What a call of `parse` has done: the directories handed to
`parser.ParseDir`, the signatures printed, and how it ended. -/
structure Run where
  parsed : List String
  funcs : List function
  ending : End
  deriving DecidableEq, Repr

/-- The first loop of `parse` (lines 211 to 215): `none` when `fileExists`
aborts, `some (some msg)` when the loop returns the error `msg`, `some none`
when it runs to its end. -/
def checkDirs (H : Host) : List String → Option (Option String)
  | [] => some none
  | dir :: rest =>
    match fileExists H dir with
    | none => none
    | some (_, isDir) =>
      if !isDir then some (some ("invalid package source directory: " ++ H.quote dir))
      else checkDirs H rest

/-- The second loop of `parse` (lines 221 to 242). -/
def parseDirs (H : Host) : List String → Run
  | [] => { parsed := [], funcs := [], ending := .returned none }
  | dir :: rest =>
    match H.parseDir dir with
    | .error err =>
      { parsed := [dir], funcs := [],
        ending := .returned (some ("failed to parse: " ++ H.quote dir ++ ": " ++ err ++ "\n")) }
    | .ok nodes =>
      let v := visitAll H.isUpper { funcs := [] } nodes
      let r := parseDirs H rest
      { parsed := dir :: r.parsed, funcs := v.funcs ++ r.funcs, ending := r.ending }

/-- Go `func (p *PackageList) parse(prefix ...string) error`. -/
def PackageList.parse (H : Host) (p : PackageList) (pfx : List String) : Run :=
  let path := PackageList.withPrefix H p pfx
  match checkDirs H path with
  | none => { parsed := [], funcs := [], ending := .nilDereference }
  | some (some msg) => { parsed := [], funcs := [], ending := .returned (some msg) }
  | some none => parseDirs H path

/-- A host for concrete runs: a Go root `/go` that holds the directory
`src/path/filepath` and the plain file `src/README`, a plain file
`/etc/passwd` (so that `os.Stat` on a path below it fails with "not a
directory", which is not a not-exist error), ASCII letter classes, quoting that
only adds the quotation marks, and a `filepath.Join` for clean elements. -/
def sampleHost : Host where
  stat p :=
    if p = "/go/src/path/filepath" then (some ⟨true⟩, none)
    else if p = "/go/src/README" then (some ⟨false⟩, none)
    else if Busygo.strings.HasPrefix p "/etc/passwd/" then
      (none, some ⟨"stat " ++ p ++ ": not a directory", false⟩)
    else (none, some ⟨"stat " ++ p ++ ": no such file or directory", true⟩)
  join xs := Busygo.strings.Join (xs.filter (fun x => decide (x ≠ ""))) "/"
  parseDir d :=
    if d = "/go/src/path/filepath" then .ok [.FuncDecl declJoin, .FuncDecl declHelper]
    else .ok []
  quote s := "\"" ++ s ++ "\""
  isUpper := asciiUpper
  isLetter c := decide ((65 ≤ c.toNat ∧ c.toNat ≤ 90) ∨ (97 ≤ c.toNat ∧ c.toNat ≤ 122))
  isDigit c := decide (48 ≤ c.toNat ∧ c.toNat ≤ 57)

end Generate

namespace Busygo

/-! ## Resolution: found exactly when an entry is returned -/

theorem lookupName_some {lc : Char → Char} {name : String} {ps : List functionProp}
    {p : functionProp} (h : lookupName lc name ps = some p) :
    p ∈ ps ∧ strings.ToLower lc p.name = name := by
  induction ps with
  | nil => simp [lookupName] at h
  | cons q qs ih =>
    unfold lookupName at h
    split at h
    · next hq =>
      cases h
      exact ⟨List.mem_cons_self _ _, hq⟩
    · exact ⟨List.mem_cons_of_mem _ (ih h).1, (ih h).2⟩

theorem lookupName_none {lc : Char → Char} {name : String} {ps : List functionProp} :
    lookupName lc name ps = none ↔ ∀ p ∈ ps, strings.ToLower lc p.name ≠ name := by
  induction ps with
  | nil => simp [lookupName]
  | cons q qs ih =>
    unfold lookupName
    split
    · next hq => simp [hq]
    · next hq => simp [ih, hq]

theorem resolveIn_ok (lc : Char → Char) (name pkg : String) (fs : List Package) :
    (resolveIn lc name pkg fs).2.2 = (resolveIn lc name pkg fs).2.1.isSome := by
  induction fs with
  | nil => rfl
  | cons f fs ih =>
    unfold resolveIn
    dsimp only
    split
    · split
      · rfl
      · exact ih
    · exact ih

theorem resolve_ok (lc : Char → Char) (s : String) :
    (resolve lc s).2.2 = (resolve lc s).2.1.isSome := by
  unfold resolve
  split
  · rfl
  · exact resolveIn_ok _ _ _ _

/-! ## The dispatcher -/

/-- C1, as the code behaves.  Whenever `flag.Parse` returns and the function
name does not resolve, `main` prints the general usage of `busygo` and then
goes on to `prop.fref` with `prop` nil: the run ends in the nil-pointer
run-time error instead of a normal termination. -/
theorem main_unresolved_aborts (L : Lib) (arg0 : String) (rest : List String)
    (v : String) (flagArgs : List String)
    (hparse : L.flagParse (decide (L.base arg0 = baseName)) rest = some (v, flagArgs))
    (hres : (resolve L.lc (dispatchKey (L.base arg0)
      (if L.base arg0 = baseName then v else "") flagArgs rest).1).2.2 = false) :
    main L arg0 rest =
      (printUsage L (decide (L.base arg0 = baseName)) baseName, Exit.nilDereference) ∧
    (printUsage L (decide (L.base arg0 = baseName)) baseName).stdout =
      "Usage of busygo:\n" ++ "\nThe following library functions are supported:\n" ++
        String.join (functions.map (usagePackage L)) := by
  constructor
  · have hnone := resolve_ok L.lc (dispatchKey (L.base arg0)
      (if L.base arg0 = baseName then v else "") flagArgs rest).1
    rw [hres] at hnone
    unfold main
    simp only [hparse, decide_eq_true_eq]
    generalize resolve L.lc (dispatchKey (L.base arg0)
      (if L.base arg0 = baseName then v else "") flagArgs rest).1 = r at hres hnone
    obtain ⟨pkg, prop, ok⟩ := r
    simp only at hres hnone
    subst hres
    cases prop with
    | none => simp
    | some p => simp at hnone
  · unfold printUsage
    simp [baseName, generalUsage]

/-- The run `busygo` with no argument: usage, then the nil dereference. -/
theorem main_unresolved_aborts_witness :
    sampleLib.flagParse (decide (sampleLib.base "busygo" = baseName)) [] = some ("", []) ∧
    (resolve sampleLib.lc (dispatchKey (sampleLib.base "busygo")
      (if sampleLib.base "busygo" = baseName then "" else "") [] []).1).2.2 = false ∧
    (main sampleLib "busygo" []).2 = Exit.nilDereference :=
  ⟨by decide, by decide,
    congrArg Prod.snd (main_unresolved_aborts sampleLib "busygo" [] "" []
      (by decide) (by decide)).1⟩

theorem Output.empty_append (o : Output) : Output.empty.append o = o := by
  cases o
  simp [Output.append, Output.empty]

/-- C2.  When the function name resolves to `p` and `p.fref` returns
`(res, err)`, `main` writes exactly `render res err` and returns; for every
pair `(res, err)` the standard output is the space-joined `res` and a newline
when `res` is non-empty and nothing otherwise, whatever `err` is, and the
standard error is the message of `err` and a newline when `err` is non-nil and
nothing otherwise.  `(["/abs/path"], nil)` gives `"/abs/path\n"` and no error
output. -/
theorem main_renders_result (L : Lib) (arg0 : String) (rest : List String)
    (v : String) (flagArgs : List String) (p : functionProp)
    (hparse : L.flagParse (decide (L.base arg0 = baseName)) rest = some (v, flagArgs))
    (hres : (resolve L.lc (dispatchKey (L.base arg0)
      (if L.base arg0 = baseName then v else "") flagArgs rest).1).2.1 = some p) :
    main L arg0 rest =
      (render
        (p.fref.call L.abs (dispatchKey (L.base arg0)
          (if L.base arg0 = baseName then v else "") flagArgs rest).2).1
        (p.fref.call L.abs (dispatchKey (L.base arg0)
          (if L.base arg0 = baseName then v else "") flagArgs rest).2).2,
       Exit.returned) ∧
    (∀ (res : Option (List String)) (err : Option String),
      (render res err).stdout =
        (if res.getD [] = [] then "" else strings.Join (res.getD []) " " ++ "\n") ∧
      (render res err).stderr = (err.map (fun m => m ++ "\n")).getD "" ∧
      (render res err).stdout = (render res none).stdout) ∧
    render (some ["/abs/path"]) none = ⟨"/abs/path\n", ""⟩ := by
  refine ⟨?_, ?_, by decide⟩
  · have hok := resolve_ok L.lc (dispatchKey (L.base arg0)
      (if L.base arg0 = baseName then v else "") flagArgs rest).1
    rw [hres] at hok
    unfold main
    simp only [hparse, decide_eq_true_eq]
    generalize resolve L.lc (dispatchKey (L.base arg0)
      (if L.base arg0 = baseName then v else "") flagArgs rest).1 = r at hres hok
    obtain ⟨pkg, prop, ok⟩ := r
    simp only at hres hok
    subst hres
    simp only [Option.isSome_some] at hok
    subst hok
    simp [Output.empty_append]
  · intro res err
    refine ⟨?_, ?_, rfl⟩
    · cases res with
      | none => simp [render]
      | some r => cases r <;> simp [render]
    · cases err <;> simp [render]

/-- The run `abs path`: one line on the standard output, nothing else. -/
theorem main_renders_result_witness :
    sampleLib.flagParse (decide (sampleLib.base "abs" = baseName)) ["path"] =
      some ("", ["path"]) ∧
    (resolve sampleLib.lc (dispatchKey (sampleLib.base "abs")
      (if sampleLib.base "abs" = baseName then "" else "") ["path"] ["path"]).1).2.1 =
      some ⟨"Abs", "path string", true, "string, error", .filepath_Abs⟩ ∧
    main sampleLib "abs" ["path"] = (⟨"/abs/path\n", ""⟩, Exit.returned) :=
  ⟨by decide, by decide,
    (main_renders_result sampleLib "abs" ["path"] "" ["path"]
      ⟨"Abs", "path string", true, "string, error", .filepath_Abs⟩
      (by decide) (by decide)).1.trans (by decide)⟩

/-! ## Resolution depends on the lowercased query only -/

theorem asciiLower_dot (c : Char) (h : asciiLower c = '.') : c = '.' := by
  unfold asciiLower at h
  split at h
  · next hc =>
    exfalso
    have h2 := congrArg Char.toNat h
    have hv : (c.toNat + 32).isValidChar := by
      left
      omega
    rw [Char.ofNat, dif_pos hv] at h2
    have h3 : (Char.ofNatAux (c.toNat + 32) hv).toNat = c.toNat + 32 := by
      simp [Char.ofNatAux, Char.toNat, Char.ofNat, UInt32.toNat, Nat.mod_eq_of_lt, show c.toNat + 32 < 4294967296 by omega]
    rw [h3] at h2
    have : ('.' : Char).toNat = 46 := by decide
    omega
  · exact h

theorem splitAux_dot_map (lc : Char → Char) (l : List Char)
    (h : ∀ c ∈ l, (lc c = '.' ↔ c = '.')) (cur : List Char) :
    strings.splitAux ['.'] 0 (cur.map lc) (l.map lc) =
      (strings.splitAux ['.'] 0 cur l).map (List.map lc) := by
  induction l generalizing cur with
  | nil => simp [strings.splitAux]
  | cons c cs ih =>
    have hcs : ∀ d ∈ cs, (lc d = '.' ↔ d = '.') :=
      fun d hd => h d (List.mem_cons_of_mem _ hd)
    have hc := h c (List.mem_cons_self _ _)
    by_cases hdot : c = '.'
    · have hl : lc c = '.' := hc.2 hdot
      have := ih hcs []
      simp only [List.map_nil] at this
      subst hdot
      simp [strings.splitAux, List.isPrefixOf, hl, this]
    · have hl : ¬ lc c = '.' := fun e => hdot (hc.1 e)
      have hl2 : ¬ '.' = lc c := fun e => hl e.symm
      have hdot2 : ¬ '.' = c := fun e => hdot e.symm
      have := ih hcs (c :: cur)
      simp only [List.map_cons] at this
      simp [strings.splitAux, List.isPrefixOf, hl2, hdot2, this]

theorem Split_dot_ToLower (lc : Char → Char) (q : String)
    (h : ∀ c ∈ q.data, (lc c = '.' ↔ c = '.')) :
    strings.Split (strings.ToLower lc q) "." =
      (strings.Split q ".").map (strings.ToLower lc) := by
  have hsep : (".".data = []) = False := by decide
  have hd : ".".data = ['.'] := by decide
  unfold strings.Split
  simp only [hsep, if_false, hd, strings.ToLower]
  have := splitAux_dot_map lc q.data h []
  simp only [List.map_nil] at this
  rw [this]
  simp [List.map_map, Function.comp_def, strings.ToLower]

theorem ToLower_ascii (lc : Char → Char)
    (hA : ∀ c : Char, c.toNat < 128 → lc c = asciiLower c) (s : String)
    (hs : asciiOnly s = true) : strings.ToLower lc s = strings.ToLower asciiLower s := by
  unfold strings.ToLower
  congr 1
  apply List.map_congr_left
  intro c hc
  apply hA
  simp only [asciiOnly, List.all_eq_true, decide_eq_true_eq] at hs
  exact hs c hc

theorem lookupName_ascii (lc : Char → Char)
    (hA : ∀ c : Char, c.toNat < 128 → lc c = asciiLower c) (name : String)
    (ps : List functionProp) (hps : ∀ p ∈ ps, asciiOnly p.name = true) :
    lookupName lc name ps = lookupName asciiLower name ps := by
  induction ps with
  | nil => rfl
  | cons p ps ih =>
    have hp := ToLower_ascii lc hA p.name (hps p (List.mem_cons_self _ _))
    have ih2 := ih (fun r hr => hps r (List.mem_cons_of_mem _ hr))
    simp only [lookupName, hp, ih2]

theorem resolveIn_ascii (lc : Char → Char)
    (hA : ∀ c : Char, c.toNat < 128 → lc c = asciiLower c) (name pkg : String)
    (fs : List Package)
    (hfs : ∀ f ∈ fs, asciiOnly (strings.Join f.pkg "/") = true ∧
      ∀ p ∈ f.prop, asciiOnly p.name = true) :
    resolveIn lc name pkg fs = resolveIn asciiLower name pkg fs := by
  induction fs with
  | nil => rfl
  | cons f fs ih =>
    have hf := hfs f (List.mem_cons_self _ _)
    have h1 := ToLower_ascii lc hA _ hf.1
    have h2 := lookupName_ascii lc hA name f.prop hf.2
    have ih2 := ih (fun g hg => hfs g (List.mem_cons_of_mem _ hg))
    simp only [resolveIn, h1, h2, ih2]

theorem functions_ascii : ∀ f ∈ functions, asciiOnly (strings.Join f.pkg "/") = true ∧
    ∀ p ∈ f.prop, asciiOnly p.name = true := by
  decide

theorem map_intercalate_slash (lc : Char → Char) (hs : lc '/' = '/')
    (ls : List (List Char)) :
    List.map lc (List.intercalate ['/'] ls) =
      List.intercalate ['/'] (ls.map (List.map lc)) := by
  induction ls with
  | nil => rfl
  | cons a rest ih =>
    cases rest with
    | nil => simp [List.intercalate, List.intersperse]
    | cons b rest2 =>
      simp only [List.intercalate, List.intersperse, List.flatten, List.map_append,
        List.map_cons, List.map_nil, hs] at ih ⊢
      rw [ih]

theorem Join_slash_ToLower (lc : Char → Char) (hs : lc '/' = '/') (xs : List String) :
    strings.ToLower lc (strings.Join xs "/") =
      strings.Join (xs.map (strings.ToLower lc)) "/" := by
  have hd : "/".data = ['/'] := by decide
  unfold strings.Join strings.ToLower
  simp only [hd, map_intercalate_slash lc hs, List.map_map]
  rfl

theorem nameAndPkg_map (lc : Char → Char) (hs : lc '/' = '/') (path : List String) :
    nameAndPkg (path.map (strings.ToLower lc)) =
      (nameAndPkg path).map
        (fun np => (strings.ToLower lc np.1, strings.ToLower lc np.2)) := by
  have he : strings.ToLower lc "" = "" := by
    simp [strings.ToLower]
  match path with
  | [] => rfl
  | [n] => simp [nameAndPkg, he]
  | a :: b :: rest =>
    simp only [nameAndPkg, List.map_cons, Option.map_some', List.length_cons,
      List.length_map, Option.some.injEq, Prod.mk.injEq]
    constructor
    · have := List.getD_map (l := a :: b :: rest) (d := "")
        (n := rest.length + 1 + 1 - 1) (strings.ToLower lc)
      rw [he] at this
      simpa using this
    · rw [Join_slash_ToLower lc hs]
      simp [List.map_take]

/-- Under a lowercase map that agrees with ASCII lowercasing on ASCII runes
and sends no rune of the query but the dot to the dot, `resolve` is the lookup
of the pieces of the lowercased query. -/
theorem resolve_eq_segs (lc : Char → Char)
    (hA : ∀ c : Char, c.toNat < 128 → lc c = asciiLower c) (q : String)
    (hq : ∀ c ∈ q.data, lc c = '.' → c = '.') :
    resolve lc q = resolveSegs asciiLower (strings.Split (strings.ToLower lc q) ".") := by
  have hdot : lc '.' = '.' := by
    rw [hA '.' (by decide)]
    decide
  have hs : lc '/' = '/' := by
    rw [hA '/' (by decide)]
    decide
  have hiff : ∀ c ∈ q.data, (lc c = '.' ↔ c = '.') :=
    fun c hc => ⟨hq c hc, fun e => by rw [e]; exact hdot⟩
  rw [Split_dot_ToLower lc q hiff]
  unfold resolve resolveSegs
  rw [nameAndPkg_map lc hs]
  cases nameAndPkg (strings.Split q ".") with
  | none => rfl
  | some np =>
    obtain ⟨n, pk⟩ := np
    simp only [Option.map_some']
    exact resolveIn_ascii lc hA _ _ functions functions_ascii

/-- For an ASCII query the second condition of `resolve_eq_segs` holds. -/
theorem resolve_ascii_query (lc : Char → Char)
    (hA : ∀ c : Char, c.toNat < 128 → lc c = asciiLower c) (q : String)
    (hq : asciiOnly q = true) :
    resolve lc q = resolveSegs asciiLower (strings.Split (strings.ToLower asciiLower q) ".") := by
  rw [← ToLower_ascii lc hA q hq]
  apply resolve_eq_segs lc hA
  intro c hc hl
  simp only [asciiOnly, List.all_eq_true, decide_eq_true_eq] at hq
  rw [hA c (hq c hc)] at hl
  exact asciiLower_dot c hl

/-! ## Resolution of the registered names -/

theorem registered_table : ∀ f ∈ registered,
    asciiOnly ("path/filepath." ++ f.name) = true ∧
    asciiOnly ("filepath." ++ f.name) = true ∧
    asciiOnly f.name = true ∧
    resolveSegs asciiLower (strings.Split
      (strings.ToLower asciiLower ("path/filepath." ++ f.name)) ".") =
      ("path/filepath", some f, true) ∧
    resolveSegs asciiLower (strings.Split
      (strings.ToLower asciiLower ("filepath." ++ f.name)) ".") =
      ("path/filepath", some f, true) ∧
    resolveSegs asciiLower (strings.Split (strings.ToLower asciiLower f.name) ".") =
      ("path/filepath", some f, true) := by
  decide

/-- C3.  `resolve` is case-insensitive: a query whose lowercase form is the
lowercase form of `"path/filepath." ++ f.name`, for a registered `f`, resolves
to `f` in package `"path/filepath"`; `"FILEPATH.ABS"` and `"filepath.abs"`
resolve to the same entry, `Abs`. -/
theorem resolve_case_insensitive (lc : Char → Char)
    (hA : ∀ c : Char, c.toNat < 128 → lc c = asciiLower c)
    (f : functionProp) (hf : f ∈ registered) (q : String)
    (hdot : ∀ c ∈ q.data, lc c = '.' → c = '.')
    (hq : strings.ToLower lc q = strings.ToLower lc ("path/filepath." ++ f.name)) :
    resolve lc q = ("path/filepath", some f, true) ∧
    resolve lc "FILEPATH.ABS" = resolve lc "filepath.abs" ∧
    resolve lc "filepath.abs" =
      ("path/filepath", some ⟨"Abs", "path string", true, "string, error", .filepath_Abs⟩,
        true) := by
  have ht := registered_table f hf
  refine ⟨?_, ?_, ?_⟩
  · rw [resolve_eq_segs lc hA q hdot, hq, ToLower_ascii lc hA _ ht.1]
    exact ht.2.2.2.1
  · rw [resolve_ascii_query lc hA "FILEPATH.ABS" (by decide),
      resolve_ascii_query lc hA "filepath.abs" (by decide)]
    decide
  · rw [resolve_ascii_query lc hA "filepath.abs" (by decide)]
    decide

/-- The query `PATH/FilePath.eVALsYMLINKS`, under ASCII lowercasing. -/
theorem resolve_case_insensitive_witness :
    (∀ c : Char, c.toNat < 128 → asciiLower c = asciiLower c) ∧
    (⟨"EvalSymlinks", "path string", false, "string, error", .filepath_EvalSymlinks⟩ :
      functionProp) ∈ registered ∧
    (∀ c ∈ "PATH/FilePath.eVALsYMLINKS".data, asciiLower c = '.' → c = '.') ∧
    strings.ToLower asciiLower "PATH/FilePath.eVALsYMLINKS" =
      strings.ToLower asciiLower ("path/filepath." ++ "EvalSymlinks") ∧
    resolve asciiLower "PATH/FilePath.eVALsYMLINKS" =
      ("path/filepath",
        some ⟨"EvalSymlinks", "path string", false, "string, error", .filepath_EvalSymlinks⟩,
        true) :=
  ⟨fun _ _ => rfl, by decide, fun c _ h => asciiLower_dot c h, by decide,
    (resolve_case_insensitive asciiLower (fun _ _ => rfl)
      ⟨"EvalSymlinks", "path string", false, "string, error", .filepath_EvalSymlinks⟩
      (by decide) "PATH/FilePath.eVALsYMLINKS" (fun c _ h => asciiLower_dot c h)
      (by decide)).1⟩

/-- C4.  Package-path suffix matching: every package of the registry is
`path/filepath`, and for every function `f` registered under it the queries `"filepath." ++ f.name` and `f.name` (no
package filter) resolve as `"path/filepath." ++ f.name` does, to `f` in
package `"path/filepath"`. -/
theorem resolve_pkg_suffix (lc : Char → Char)
    (hA : ∀ c : Char, c.toNat < 128 → lc c = asciiLower c)
    (pk : Package) (hpk : pk ∈ functions) (f : functionProp) (hf : f ∈ pk.prop) :
    pk.pkg = ["path", "filepath"] ∧
    resolve lc ("filepath." ++ f.name) = resolve lc ("path/filepath." ++ f.name) ∧
    resolve lc f.name = resolve lc ("path/filepath." ++ f.name) ∧
    resolve lc ("path/filepath." ++ f.name) = ("path/filepath", some f, true) := by
  have hreg : f ∈ registered := by
    unfold registered
    rw [List.mem_flatMap]
    exact ⟨pk, hpk, hf⟩
  have ht := registered_table f hreg
  have h1 : resolve lc ("path/filepath." ++ f.name) = ("path/filepath", some f, true) := by
    rw [resolve_ascii_query lc hA _ ht.1]
    exact ht.2.2.2.1
  have h2 : resolve lc ("filepath." ++ f.name) = ("path/filepath", some f, true) := by
    rw [resolve_ascii_query lc hA _ ht.2.1]
    exact ht.2.2.2.2.1
  have h3 : resolve lc f.name = ("path/filepath", some f, true) := by
    rw [resolve_ascii_query lc hA _ ht.2.2.1]
    exact ht.2.2.2.2.2
  have h0 : ∀ g ∈ functions, g.pkg = ["path", "filepath"] := by decide
  exact ⟨h0 pk hpk, h2.trans h1.symm, h3.trans h1.symm, h1⟩

/-- The queries `filepath.Abs` and `Abs`, under ASCII lowercasing. -/
theorem resolve_pkg_suffix_witness :
    (∀ c : Char, c.toNat < 128 → asciiLower c = asciiLower c) ∧
    functions.headD ⟨[], []⟩ ∈ functions ∧
    (⟨"Abs", "path string", true, "string, error", .filepath_Abs⟩ : functionProp) ∈
      (functions.headD ⟨[], []⟩).prop ∧
    resolve asciiLower "filepath.Abs" = resolve asciiLower "path/filepath.Abs" ∧
    resolve asciiLower "Abs" = resolve asciiLower "path/filepath.Abs" ∧
    resolve asciiLower "path/filepath.Abs" =
      ("path/filepath", some ⟨"Abs", "path string", true, "string, error", .filepath_Abs⟩,
        true) :=
  ⟨fun _ _ => rfl, by decide, by decide,
    (resolve_pkg_suffix asciiLower (fun _ _ => rfl)
      (functions.headD ⟨[], []⟩) (by decide)
      ⟨"Abs", "path string", true, "string, error", .filepath_Abs⟩ (by decide)).2⟩

/-! ## The package filter and unknown names -/

theorem resolveIn_found_iff (lc : Char → Char) (name pkg : String) (fs : List Package) :
    (resolveIn lc name pkg fs).2.2 = true ↔
      ∃ f ∈ fs, ("" = pkg ∨
          strings.HasSuffix (strings.ToLower lc (strings.Join f.pkg "/")) pkg = true) ∧
        ∃ p ∈ f.prop, strings.ToLower lc p.name = name := by
  induction fs with
  | nil => simp [resolveIn]
  | cons f fs ih =>
    unfold resolveIn
    dsimp only
    split
    · next hmatch =>
      split
      · next p hp =>
        have := lookupName_some hp
        simp only [List.mem_cons, exists_eq_or_imp, true_iff]
        exact Or.inl ⟨hmatch, p, this.1, this.2⟩
      · next hp =>
        rw [lookupName_none] at hp
        rw [ih]
        simp only [List.mem_cons, exists_eq_or_imp]
        constructor
        · exact Or.inr
        · rintro (⟨_, p, hpm, hpn⟩ | h)
          · exact absurd hpn (hp p hpm)
          · exact h
    · next hmatch =>
      rw [ih]
      simp only [List.mem_cons, exists_eq_or_imp]
      constructor
      · exact Or.inr
      · rintro (⟨hm, _⟩ | h)
        · exact absurd hm hmatch
        · exact h

theorem resolveIn_not_found (lc : Char → Char) (name pkg : String) (fs : List Package)
    (h : (resolveIn lc name pkg fs).2.2 = false) :
    resolveIn lc name pkg fs = ("", none, false) := by
  induction fs with
  | nil => rfl
  | cons f fs ih =>
    unfold resolveIn at h ⊢
    dsimp only at h ⊢
    split
    · next hmatch =>
      rw [if_pos hmatch] at h
      split
      · next p hp =>
        rw [hp] at h
        simp at h
      · next hp =>
        rw [hp] at h
        exact ih h
    · next hmatch =>
      rw [if_neg hmatch] at h
      exact ih h

theorem nameAndPkg_name {path : List String} {np : String × String}
    (h : nameAndPkg path = some np) : np.1 = path.getLastD "" := by
  match path with
  | [] => simp [nameAndPkg] at h
  | [n] =>
    simp only [nameAndPkg, Option.some.injEq] at h
    subst h
    rfl
  | a :: b :: rest =>
    simp only [nameAndPkg, Option.some.injEq] at h
    subst h
    simp [List.getLast?_eq_getElem?]

/-- C5, as stated, fails: the filters `epath` and `h/filepath` cut through a
segment of `path/filepath`, are the join of no whole trailing segments, and
yet `epath.Abs` and `h/filepath.Abs` resolve to `Abs`. -/
theorem resolve_filter_cuts_segment :
    resolve asciiLower "epath.Abs" =
      ("path/filepath", some ⟨"Abs", "path string", true, "string, error", .filepath_Abs⟩,
        true) ∧
    (resolve asciiLower "h/filepath.Abs").2.2 = true ∧
    ∀ f ∈ functions, ∀ k ∈ List.range (f.pkg.length + 1), 1 ≤ k →
      strings.ToLower asciiLower (strings.Join (f.pkg.drop (f.pkg.length - k)) "/") ≠ "epath" ∧
      strings.ToLower asciiLower (strings.Join (f.pkg.drop (f.pkg.length - k)) "/") ≠
        "h/filepath" := by
  decide

/-- C5, amended.  For a query with a non-empty package filter, `resolve`
finds a function exactly when some registered package has the lowercased
filter as a suffix, rune by rune, of its lowercased joined path, and holds a
function of the lowercased name: whole segments play no part. -/
theorem resolve_filter_char_suffix (lc : Char → Char) (q name pkg : String)
    (hq : nameAndPkg (strings.Split q ".") = some (name, pkg))
    (hne : strings.ToLower lc pkg ≠ "") :
    (resolve lc q).2.2 = true ↔
      ∃ f ∈ functions,
        (∃ pre : List Char, (strings.ToLower lc (strings.Join f.pkg "/")).data =
          pre ++ (strings.ToLower lc pkg).data) ∧
        ∃ p ∈ f.prop, strings.ToLower lc p.name = strings.ToLower lc name := by
  unfold resolve
  rw [hq]
  simp only
  rw [resolveIn_found_iff]
  have hne2 : ¬ "" = strings.ToLower lc pkg := fun e => hne e.symm
  simp only [hne2, false_or, strings.HasSuffix, List.isSuffixOf_iff_suffix]
  constructor
  · rintro ⟨f, hf, ⟨pre, hpre⟩, hp⟩
    exact ⟨f, hf, ⟨pre, hpre.symm⟩, hp⟩
  · rintro ⟨f, hf, ⟨pre, hpre⟩, hp⟩
    exact ⟨f, hf, ⟨pre, hpre.symm⟩, hp⟩

/-- The query `epath.Abs` under ASCII lowercasing. -/
theorem resolve_filter_char_suffix_witness :
    nameAndPkg (strings.Split "epath.Abs" ".") = some ("Abs", "epath") ∧
    strings.ToLower asciiLower "epath" ≠ "" ∧
    ((resolve asciiLower "epath.Abs").2.2 = true ↔
      ∃ f ∈ functions,
        (∃ pre : List Char, (strings.ToLower asciiLower (strings.Join f.pkg "/")).data =
          pre ++ (strings.ToLower asciiLower "epath").data) ∧
        ∃ p ∈ f.prop, strings.ToLower asciiLower p.name = strings.ToLower asciiLower "Abs") :=
  ⟨by decide, by decide,
    resolve_filter_char_suffix asciiLower "epath.Abs" "Abs" "epath" (by decide) (by decide)⟩

/-- C6.  A query whose last dot-separated piece, lowercased, is the
lowercased name of no registered function resolves to `("", nil, false)`;
`resolve` is a total function, so this covers the empty query and the queries
that end in a dot. -/
theorem resolve_unknown_name (lc : Char → Char) (q : String)
    (h : ∀ f ∈ registered,
      strings.ToLower lc f.name ≠ strings.ToLower lc ((strings.Split q ".").getLastD "")) :
    resolve lc q = ("", none, false) := by
  unfold resolve
  split
  · rfl
  · next name pkg hnp =>
    apply resolveIn_not_found
    rw [Bool.eq_false_iff]
    intro hfound
    rw [resolveIn_found_iff] at hfound
    obtain ⟨f, hf, _, p, hp, hname⟩ := hfound
    have hn := nameAndPkg_name hnp
    simp only at hn
    apply h p
    · unfold registered
      rw [List.mem_flatMap]
      exact ⟨f, hf, hp⟩
    · rw [hname, hn]

/-- The queries `filepath.` (ending in a dot) and the empty query, under
ASCII lowercasing. -/
theorem resolve_unknown_name_witness :
    (∀ f ∈ registered, strings.ToLower asciiLower f.name ≠
      strings.ToLower asciiLower ((strings.Split "filepath." ".").getLastD "")) ∧
    resolve asciiLower "filepath." = ("", none, false) :=
  ⟨by decide, resolve_unknown_name asciiLower "filepath." (by decide)⟩

/-! ## Formatting of signatures -/

theorem registered_args : ∀ p ∈ registered,
    (p.args.getLast? = some "[...]" ↔ p.arep = true) ∧
    (p.arep = true ↔ p.name = "Abs") ∧
    (p.name = "Abs" → p.args = ["path", "[...]"]) ∧
    (p.name = "Join" → p.argp = "elem ...string" ∧ p.args = ["elem", "..."]) := by
  decide

/-- C7, as stated, fails: the registered `Join` has the variadic signature
`elem ...string`, and its formatted argument list is `["elem", "..."]`, with
no `"[...]"` at the end. -/
theorem args_Join_no_sentinel :
    (⟨"Join", "elem ...string", false, "string", .filepath_Join⟩ : functionProp) ∈ registered ∧
    (⟨"Join", "elem ...string", false, "string", .filepath_Join⟩ : functionProp).args =
      ["elem", "..."] ∧
    (⟨"Join", "elem ...string", false, "string", .filepath_Join⟩ : functionProp).args.getLast? ≠
      some "[...]" := by
  decide

/-- C7, amended.  For every function of the registry the formatted argument
list ends with the token `"[...]"` exactly when the field `arep` is set, which
is the case for `Abs` only, whose list is `["path", "[...]"]`; for `Join`
(`elem ...string`, `arep` false) the list is `["elem", "..."]`. -/
theorem args_sentinel_iff_arep (p : functionProp) (hp : p ∈ registered) :
    (p.args.getLast? = some "[...]" ↔ p.arep = true) ∧
    (p.arep = true ↔ p.name = "Abs") ∧
    (p.name = "Abs" → p.args = ["path", "[...]"]) ∧
    (p.name = "Join" → p.argp = "elem ...string" ∧ p.args = ["elem", "..."]) :=
  registered_args p hp

/-- The entry `Abs`: `arep` is set and the list ends with `"[...]"`. -/
theorem args_sentinel_iff_arep_witness :
    (⟨"Abs", "path string", true, "string, error", .filepath_Abs⟩ : functionProp) ∈ registered ∧
    (⟨"Abs", "path string", true, "string, error", .filepath_Abs⟩ : functionProp).args =
      ["path", "[...]"] :=
  ⟨by decide,
    (args_sentinel_iff_arep ⟨"Abs", "path string", true, "string, error", .filepath_Abs⟩
      (by decide)).2.2.1 rfl⟩

theorem formatList_snd (s : String) :
    (formatList s).2 = (if strings.HasPrefix s "[]" = true ∨ strings.HasPrefix s "..." = true
      then "..." else "") := by
  unfold formatList
  by_cases h1 : strings.HasPrefix s "[]" = true
  · simp [h1]
  · by_cases h2 : strings.HasPrefix s "..." = true
    · simp [h2]
    · simp [h1, h2]

/-- C8.  `formatArg s` has one or two tokens; it has two exactly when `s` has
one or two fields and the last field begins with `[]` or `...`, and the second
token is then `"..."`; when `s` has two fields the first token is the first
field.  `"path string"` gives `["path"]` and `"elem ...string"` gives
`["elem", "..."]`. -/
theorem formatArg_tokens (s : String) :
    ((formatArg s).length = 1 ∨ (formatArg s).length = 2) ∧
    ((formatArg s).length = 2 ↔
      (((strings.Fields s).length = 1 ∨ (strings.Fields s).length = 2) ∧
        (strings.HasPrefix ((strings.Fields s).getLastD "") "[]" = true ∨
          strings.HasPrefix ((strings.Fields s).getLastD "") "..." = true))) ∧
    ((formatArg s).length = 2 → (formatArg s).drop 1 = ["..."]) ∧
    (∀ a b : String, strings.Fields s = [a, b] → (formatArg s).head? = some a) ∧
    formatArg "path string" = ["path"] ∧
    formatArg "elem ...string" = ["elem", "..."] := by
  have hd : ("..." : String) ≠ "" := by decide
  refine ⟨?_, ?_, ?_, ?_, by decide, by decide⟩
  · unfold formatArg
    dsimp only
    split <;> simp
  · unfold formatArg
    dsimp only
    match hF : strings.Fields s with
    | [] => simp
    | [a] =>
      simp only [List.length_singleton, List.getLastD_cons, List.getLastD_nil, true_or,
        true_and]
      have h2 := formatList_snd a
      by_cases hp : strings.HasPrefix a "[]" = true ∨ strings.HasPrefix a "..." = true
      · rw [if_pos hp] at h2
        simp [h2, hp]
      · rw [if_neg hp] at h2
        simp [h2, hp]
    | [a, b] =>
      simp only [List.length_cons, List.length_nil, List.getLastD_cons, List.getLastD_nil]
      have h2 := formatList_snd b
      by_cases hp : strings.HasPrefix b "[]" = true ∨ strings.HasPrefix b "..." = true
      · rw [if_pos hp] at h2
        simp [h2, hp]
      · rw [if_neg hp] at h2
        simp [h2, hp]
    | a :: b :: c :: rest => simp
  · unfold formatArg
    dsimp only
    match hF : strings.Fields s with
    | [] => simp
    | [a] =>
      have h2 := formatList_snd a
      by_cases hp : strings.HasPrefix a "[]" = true ∨ strings.HasPrefix a "..." = true
      · rw [if_pos hp] at h2
        simp [h2]
      · rw [if_neg hp] at h2
        simp [h2]
    | [a, b] =>
      have h2 := formatList_snd b
      by_cases hp : strings.HasPrefix b "[]" = true ∨ strings.HasPrefix b "..." = true
      · rw [if_pos hp] at h2
        simp [h2]
      · rw [if_neg hp] at h2
        simp [h2]
    | a :: b :: c :: rest => simp
  · intro a b hF
    unfold formatArg
    dsimp only
    rw [hF]
    split <;> simp

/-- C9.  `p.String()` is `"func "`, the name, the argument signature in
parentheses, a space, and the return signature, which is put in parentheses
exactly when it contains a comma; for `Abs` it is
`func Abs(path string) (string, error)` and for `Base` it is
`func Base(path string) string`. -/
theorem String_format (p : functionProp) :
    p.String = "func " ++ p.name ++ "(" ++ p.argp ++ ") " ++
      (if ',' ∈ p.retp.data then "(" ++ p.retp ++ ")" else p.retp) ∧
    (⟨"Abs", "path string", true, "string, error", .filepath_Abs⟩ : functionProp).String =
      "func Abs(path string) (string, error)" ∧
    (⟨"Base", "path string", false, "string", .filepath_Base⟩ : functionProp).String =
      "func Base(path string) string" ∧
    (⟨"Abs", "path string", true, "string, error", .filepath_Abs⟩ : functionProp) ∈ registered ∧
    (⟨"Base", "path string", false, "string", .filepath_Base⟩ : functionProp) ∈ registered := by
  refine ⟨?_, by decide, by decide, by decide, by decide⟩
  unfold functionProp.String strings.ContainsRune
  by_cases h : ',' ∈ p.retp.data
  · simp [h]
  · simp [h]

end Busygo

namespace Generate

/-! ## The visitor -/

theorem visitAll_funcs (isUpper : Char → Bool) (nodes : List Node) (v : funcVisitor) :
    (visitAll isUpper v nodes).funcs = v.funcs ++ nodes.filterMap (recorded isUpper) := by
  induction nodes generalizing v with
  | nil => simp [visitAll]
  | cons n ns ih =>
    cases n with
    | other => simp [visitAll, Visit, recorded, ih]
    | FuncDecl o =>
      by_cases he : IsExported isUpper o.name = true
      · simp [visitAll, Visit, recorded, he, ih]
      · simp [visitAll, Visit, recorded, he, ih]

/-- C10.  `Visit` appends the signature of a function declaration exactly
when its name is exported and leaves the visitor as it is otherwise, so after
a list of nodes has been visited `funcs` holds, after what it held before, the
signatures of the exported declarations in the order of the visit.  Visiting
`func Join(elem ...string) string` and `func helper() int` from an empty
visitor leaves the one entry `Join`, with the argument `(ellipses, "string")`
and the result `(none, "string")`. -/
theorem Visit_records_exported (isUpper : Char → Bool)
    (hJ : isUpper 'J' = true) (hh : isUpper 'h' = false)
    (v : funcVisitor) (o : FuncDecl) (nodes : List Node) :
    (Visit isUpper v (some (.FuncDecl o)) =
      some (if IsExported isUpper o.name = true then ⟨v.funcs ++ [signature o]⟩ else v)) ∧
    (visitAll isUpper v nodes).funcs = v.funcs ++ nodes.filterMap (recorded isUpper) ∧
    (signature o ∈ nodes.filterMap (recorded isUpper) ↔
      ∃ d, Node.FuncDecl d ∈ nodes ∧ IsExported isUpper d.name = true ∧
        signature d = signature o) ∧
    (visitAll isUpper ⟨[]⟩ [.FuncDecl declJoin, .FuncDecl declHelper]).funcs =
      [⟨"Join", [⟨variadic.ellipses, "string"⟩], [⟨variadic.none, "string"⟩]⟩] := by
  refine ⟨?_, visitAll_funcs isUpper nodes v, ?_, ?_⟩
  · by_cases he : IsExported isUpper o.name = true
    · simp [Visit, he]
    · simp [Visit, he]
  · rw [List.mem_filterMap]
    constructor
    · rintro ⟨n, hn, hrec⟩
      cases n with
      | other => simp [recorded] at hrec
      | FuncDecl d =>
        by_cases he : IsExported isUpper d.name = true
        · simp only [recorded, he, if_true, Option.some.injEq] at hrec
          exact ⟨d, hn, he, hrec⟩
        · simp [recorded, he] at hrec
    · rintro ⟨d, hd, he, hsig⟩
      exact ⟨.FuncDecl d, hd, by simp [recorded, he, hsig]⟩
  · have h1 : IsExported isUpper declJoin.name = true := by
      simpa [IsExported, declJoin] using hJ
    have h2 : IsExported isUpper declHelper.name = false := by
      simpa [IsExported, declHelper] using hh
    rw [visitAll_funcs]
    simp only [List.filterMap_cons, List.filterMap_nil, recorded, h1, h2, if_true]
    decide

/-- The two declarations under the upper-case test of the ASCII letters. -/
theorem Visit_records_exported_witness :
    asciiUpper 'J' = true ∧ asciiUpper 'h' = false ∧
    visitAll asciiUpper ⟨[]⟩ [.FuncDecl declJoin, .FuncDecl declHelper] =
      ⟨[⟨"Join", [⟨variadic.ellipses, "string"⟩], [⟨variadic.none, "string"⟩]⟩]⟩ :=
  ⟨by decide, by decide,
    congrArg funcVisitor.mk (Visit_records_exported asciiUpper (by decide) (by decide)
      ⟨[]⟩ declJoin [.FuncDecl declJoin, .FuncDecl declHelper]).2.2.2⟩

end Generate

namespace Generate

/-! ## Parameters and their entries -/

theorem paramArgs_cons (f : Field) (fs : List Field) :
    paramArgs (f :: fs) = paramArgs [f] ++ paramArgs fs := by
  simp [paramArgs]

theorem paramArgs_single_classified (f : Field) (h : classified f.type = true) :
    ∃ a, paramArgs [f] = [a] := by
  simp only [paramArgs, List.append_nil]
  split <;> simp_all [classified]

theorem paramArgs_single_unclassified (f : Field) (h : classified f.type = false) :
    paramArgs [f] = [] := by
  simp only [paramArgs, List.append_nil]
  split <;> simp_all [classified]

theorem paramArgs_cons_classified (f : Field) (fs : List Field)
    (h : classified f.type = true) :
    ∃ a, paramArgs (f :: fs) = a :: paramArgs fs := by
  obtain ⟨a, ha⟩ := paramArgs_single_classified f h
  exact ⟨a, by rw [paramArgs_cons, ha]; rfl⟩

theorem paramArgs_cons_unclassified (f : Field) (fs : List Field)
    (h : classified f.type = false) : paramArgs (f :: fs) = paramArgs fs := by
  rw [paramArgs_cons, paramArgs_single_unclassified f h]
  rfl

theorem paramArgs_append (l1 l2 : List Field) :
    paramArgs (l1 ++ l2) = paramArgs l1 ++ paramArgs l2 := by
  induction l1 with
  | nil => simp [paramArgs]
  | cons f fs ih =>
    rw [List.cons_append, paramArgs_cons, ih, paramArgs_cons f fs, List.append_assoc]

/-- C11, as the code behaves.  `Visit` records one argument for each field
of the parameter list, not for each declared parameter: when every field has
a classified type the argument list is as long as the list of fields, which
is the number of declared parameters when no field declares several.  The
declaration `func HasPrefix(p, prefix string) bool` declares two parameters in
one field and gets the single argument `(none, "string")`. -/
theorem paramArgs_one_per_field (l : List Field)
    (h : ∀ f ∈ l, classified f.type = true) :
    (paramArgs l).length = l.length ∧
    ((∀ f ∈ l, f.names.length ≤ 1) → (paramArgs l).length = numParams l) ∧
    declHasPrefix.params.map numParams = some 2 ∧
    (signature declHasPrefix).args = [⟨variadic.none, "string"⟩] := by
  have hlen : (paramArgs l).length = l.length := by
    induction l with
    | nil => simp [paramArgs]
    | cons f fs ih =>
      obtain ⟨a, ha⟩ := paramArgs_cons_classified f fs (h f (List.mem_cons_self _ _))
      rw [ha, List.length_cons, List.length_cons,
        ih (fun g hg => h g (List.mem_cons_of_mem _ hg))]
  refine ⟨hlen, ?_, by decide, by decide⟩
  intro hone
  rw [hlen]
  clear hlen h
  induction l with
  | nil => rfl
  | cons f fs ih =>
    have hf := hone f (List.mem_cons_self _ _)
    have ih2 := ih (fun g hg => hone g (List.mem_cons_of_mem _ hg))
    have h1 : (if f.names.length = 0 then 1 else f.names.length) = 1 := by
      split <;> omega
    simp only [numParams, List.map_cons, List.sum_cons, List.length_cons, h1] at ih2 ⊢
    omega

/-- The parameter list of `HasPrefix`: one field, one argument. -/
theorem paramArgs_one_per_field_witness :
    (∀ f ∈ [(⟨["p", "prefix"], .Ident "string"⟩ : Field)], classified f.type = true) ∧
    (paramArgs [⟨["p", "prefix"], .Ident "string"⟩]).length = 1 ∧
    numParams [⟨["p", "prefix"], .Ident "string"⟩] = 2 :=
  ⟨by decide,
    (paramArgs_one_per_field [⟨["p", "prefix"], .Ident "string"⟩] (by decide)).1,
    by decide⟩

/-- C12.  For an exported declaration, a parameter field whose type is not
classified adds no entry: the argument list is that of the fields before it
followed by that of the fields after it, which is the list the declaration
gets without the field, and `Visit` still appends the signature and returns
the visitor. -/
theorem Visit_skips_unclassified (isUpper : Char → Bool) (v : funcVisitor) (o : FuncDecl)
    (l1 l2 : List Field) (f : Field)
    (hex : IsExported isUpper o.name = true)
    (hp : o.params = some (l1 ++ f :: l2))
    (hf : classified f.type = false) :
    paramArgs [f] = [] ∧
    (signature o).args = paramArgs l1 ++ paramArgs l2 ∧
    (signature o).args = (signature { o with params := some (l1 ++ l2) }).args ∧
    Visit isUpper v (some (.FuncDecl o)) = some ⟨v.funcs ++ [signature o]⟩ ∧
    (signature o).name = o.name := by
  have h1 : paramArgs [f] = [] := paramArgs_single_unclassified f hf
  have h2 : (signature o).args = paramArgs l1 ++ paramArgs l2 := by
    simp only [signature, hp]
    rw [paramArgs_append, paramArgs_cons_unclassified f l2 hf]
  refine ⟨h1, h2, ?_, ?_, rfl⟩
  · rw [h2]
    simp only [signature]
    rw [paramArgs_append]
  · simp [Visit, hex]

/-- The declaration `func Walk(root string, fn filepath.WalkFunc) error`
under the upper-case test of the ASCII letters: one argument, for `root`. -/
theorem Visit_skips_unclassified_witness :
    IsExported asciiUpper "Walk" = true ∧
    classified (.SelectorExpr (.Ident "filepath") "WalkFunc") = false ∧
    Visit asciiUpper ⟨[]⟩ (some (.FuncDecl
      ⟨"Walk", some ([⟨["root"], .Ident "string"⟩] ++
        ⟨["fn"], .SelectorExpr (.Ident "filepath") "WalkFunc"⟩ :: []),
        some [⟨[], .Ident "error"⟩]⟩)) =
      some ⟨[⟨"Walk", [⟨variadic.none, "string"⟩], [⟨variadic.none, "error"⟩]⟩]⟩ :=
  ⟨by decide, by decide,
    (Visit_skips_unclassified asciiUpper ⟨[]⟩
      ⟨"Walk", some ([⟨["root"], .Ident "string"⟩] ++
        ⟨["fn"], .SelectorExpr (.Ident "filepath") "WalkFunc"⟩ :: []),
        some [⟨[], .Ident "error"⟩]⟩
      [⟨["root"], .Ident "string"⟩] [] ⟨["fn"], .SelectorExpr (.Ident "filepath") "WalkFunc"⟩
      (by decide) rfl (by decide)).2.2.2.1.trans (by decide)⟩

/-! ## The flag `-pkg` -/

theorem TrimSpace_eq_empty (v : String) :
    Busygo.strings.TrimSpace v = "" ↔ ∀ c ∈ v.data, Busygo.strings.isSpace c = true := by
  have hmk : ∀ l : List Char, String.mk l = "" ↔ l = [] := by
    intro l
    constructor
    · intro h
      exact congrArg String.data h
    · intro h
      rw [h]
  unfold Busygo.strings.TrimSpace
  rw [hmk, List.reverse_eq_nil_iff, List.dropWhile_eq_nil_iff]
  constructor
  · intro h
    have hnil : List.dropWhile Busygo.strings.isSpace v.data = [] := by
      by_contra hne
      have hhead := List.head_dropWhile_not Busygo.strings.isSpace v.data hne
      have hmem := h _ (List.mem_reverse.2 (List.head_mem hne))
      rw [hmem] at hhead
      exact absurd hhead (by decide)
    exact List.dropWhile_eq_nil_iff.1 hnil
  · intro h x hx
    have hnil : List.dropWhile Busygo.strings.isSpace v.data = [] :=
      List.dropWhile_eq_nil_iff.2 h
    rw [hnil] at hx
    simp at hx

/-- C13.  `p.Set(v)` returns nil exactly when `v` is not empty after trimming
white space (it has a rune that is not white space), every rune of `v` is a
letter, a digit or `/`, and `v` is not in `p`; the list is then `p` with `v`
appended, and when an error is returned the list is `p`. -/
theorem Set_ok_iff (H : Host) (p : PackageList) (v : String) :
    ((PackageList.Set H p v).2 = none ↔
      (Busygo.strings.TrimSpace v ≠ "" ∧
        (∀ c ∈ v.data, H.isLetter c = true ∨ H.isDigit c = true ∨ c = '/') ∧
        v ∉ p)) ∧
    (Busygo.strings.TrimSpace v ≠ "" ↔ ∃ c ∈ v.data, Busygo.strings.isSpace c = false) ∧
    ((PackageList.Set H p v).2 = none → (PackageList.Set H p v).1 = p ++ [v]) ∧
    ((PackageList.Set H p v).2 ≠ none → (PackageList.Set H p v).1 = p) := by
  have hvalid : validPackage H v = true ↔
      ∀ c ∈ v.data, H.isLetter c = true ∨ H.isDigit c = true ∨ c = '/' := by
    simp [validPackage, validPackageRune, List.all_eq_true, or_assoc]
  have hdup : (p.any (fun k => decide (k = v))) = true ↔ v ∈ p := by
    simp [List.any_eq_true]
  refine ⟨?_, ?_, ?_, ?_⟩
  · unfold PackageList.Set
    by_cases h1 : Busygo.strings.TrimSpace v = ""
    · simp [h1]
    · by_cases h2 : validPackage H v = true
      · by_cases h3 : (p.any (fun k => decide (k = v))) = true
        · have h3m := hdup.1 h3
          rw [if_neg h1, if_neg (by simp [h2]), if_pos h3]
          simp [h3m]
        · have h3m : v ∉ p := fun hm => h3 (hdup.2 hm)
          rw [if_neg h1, if_neg (by simp [h2]), if_neg h3]
          exact ⟨fun _ => ⟨h1, hvalid.1 h2, h3m⟩, fun _ => rfl⟩
      · have h2v := fun hv => h2 (hvalid.2 hv)
        rw [if_neg h1, if_pos (by simp [h2])]
        exact ⟨fun h => by simp at h, fun hc => absurd hc.2.1 h2v⟩
  · rw [Ne, TrimSpace_eq_empty]
    simp
  · unfold PackageList.Set
    split
    · simp
    · split
      · simp
      · split
        · simp
        · simp
  · unfold PackageList.Set
    split
    · simp
    · split
      · simp
      · split
        · simp
        · simp

/-- The value `path/filepath` is accepted after `["a"]`. -/
theorem Set_ok_iff_witness :
    PackageList.Set sampleHost ["a"] "path/filepath" = (["a", "path/filepath"], none) :=
  Prod.ext
    ((Set_ok_iff sampleHost ["a"] "path/filepath").2.2.1
      (((Set_ok_iff sampleHost ["a"] "path/filepath").1).2 (by decide)))
    (((Set_ok_iff sampleHost ["a"] "path/filepath").1).2 (by decide))

/-! ## Directories -/

theorem fileExists_of_info (H : Host) (path : String) (fi : FileInfo)
    (h : H.stat path = (some fi, none)) : fileExists H path = some (true, fi.isDir) := by
  simp [fileExists, h]

theorem fileExists_of_notExist (H : Host) (path : String) (e : OsError)
    (h : H.stat path = (none, some e)) (he : e.isNotExist = true) :
    fileExists H path = some (false, false) := by
  simp [fileExists, h, he]

theorem fileExists_of_otherError (H : Host) (path : String) (e : OsError)
    (h : H.stat path = (none, some e)) (he : e.isNotExist = false) :
    fileExists H path = none := by
  simp [fileExists, h, he]

/-- C16, as the code behaves.  When `os.Stat` succeeds `fileExists` returns
`(true, stat.IsDir())`, and when it fails with a not-exist error it returns
`(false, false)`; when it fails with any other error, `exists` is true and
the call `stat.IsDir()` is made on the nil `stat`: there is no result, the
process aborts. -/
theorem fileExists_outcomes (H : Host) (path : String) :
    (∀ fi, H.stat path = (some fi, none) → fileExists H path = some (true, fi.isDir)) ∧
    (∀ e, H.stat path = (none, some e) → e.isNotExist = true →
      fileExists H path = some (false, false)) ∧
    (∀ e, H.stat path = (none, some e) → e.isNotExist = false → fileExists H path = none) :=
  ⟨fileExists_of_info H path, fileExists_of_notExist H path, fileExists_of_otherError H path⟩

/-- A path below the plain file `/etc/passwd`: `os.Stat` fails with "not a
directory" and `fileExists` has no result. -/
theorem fileExists_outcomes_witness :
    sampleHost.stat "/etc/passwd/src/path/filepath" =
      (none, some ⟨"stat /etc/passwd/src/path/filepath: not a directory", false⟩) ∧
    fileExists sampleHost "/etc/passwd/src/path/filepath" = none :=
  ⟨by decide,
    (fileExists_outcomes sampleHost "/etc/passwd/src/path/filepath").2.2
      ⟨"stat /etc/passwd/src/path/filepath: not a directory", false⟩ (by decide) rfl⟩

theorem checkDirs_append_dirs (H : Host) (pre rest : List String)
    (hpre : ∀ x ∈ pre, ∃ fi, H.stat x = (some fi, none) ∧ fi.isDir = true) :
    checkDirs H (pre ++ rest) = checkDirs H rest := by
  induction pre with
  | nil => rfl
  | cons x xs ih =>
    obtain ⟨fi, hfi, hdir⟩ := hpre x (List.mem_cons_self _ _)
    rw [List.cons_append, checkDirs, fileExists_of_info H x fi hfi]
    simp only [hdir, Bool.not_true]
    exact ih (fun y hy => hpre y (List.mem_cons_of_mem _ hy))

/-- When `os.Stat` answers every path with a file or with a not-exist error,
the first loop of `parse` returns the error that names the first path that is
not a directory, and runs to its end when there is none. -/
theorem checkDirs_first_invalid (H : Host) (pre post : List String) (d : String)
    (hpre : ∀ x ∈ pre, ∃ fi, H.stat x = (some fi, none) ∧ fi.isDir = true)
    (hd : (∃ fi, H.stat d = (some fi, none) ∧ fi.isDir = false) ∨
      (∃ e, H.stat d = (none, some e) ∧ e.isNotExist = true)) :
    checkDirs H (pre ++ d :: post) =
      some (some ("invalid package source directory: " ++ H.quote d)) := by
  rw [checkDirs_append_dirs H pre _ hpre, checkDirs]
  rcases hd with ⟨fi, hfi, hdir⟩ | ⟨e, he, hne⟩
  · rw [fileExists_of_info H d fi hfi]
    simp [hdir]
  · rw [fileExists_of_notExist H d e he hne]
    simp

theorem checkDirs_all_dirs (H : Host) (l : List String)
    (h : ∀ x ∈ l, ∃ fi, H.stat x = (some fi, none) ∧ fi.isDir = true) :
    checkDirs H l = some none := by
  have := checkDirs_append_dirs H l [] h
  rw [List.append_nil] at this
  rw [this]
  rfl

/-- C14, as the code behaves.  When the first path that is not an existing
directory is one on which `os.Stat` fails with an error other than not-exist
(a path below a plain file, a directory that cannot be searched), `parse`
returns no error: it aborts in `fileExists` on the nil `stat`, before any
directory is parsed. -/
theorem parse_aborts_on_stat_error (H : Host) (p : PackageList) (pfx : List String)
    (pre post : List String) (d : String) (e : OsError)
    (hpath : PackageList.withPrefix H p pfx = pre ++ d :: post)
    (hpre : ∀ x ∈ pre, ∃ fi, H.stat x = (some fi, none) ∧ fi.isDir = true)
    (hd : H.stat d = (none, some e)) (he : e.isNotExist = false) :
    PackageList.parse H p pfx = ⟨[], [], End.nilDereference⟩ := by
  unfold PackageList.parse
  simp only [hpath]
  rw [checkDirs_append_dirs H pre _ hpre, checkDirs, fileExists_of_otherError H d e hd he]

/-- The package `path/filepath` under the root `/etc/passwd`, a plain file. -/
theorem parse_aborts_on_stat_error_witness :
    PackageList.withPrefix sampleHost ["path/filepath"] ["/etc/passwd", "src"] =
      [] ++ "/etc/passwd/src/path/filepath" :: [] ∧
    sampleHost.stat "/etc/passwd/src/path/filepath" =
      (none, some ⟨"stat /etc/passwd/src/path/filepath: not a directory", false⟩) ∧
    PackageList.parse sampleHost ["path/filepath"] ["/etc/passwd", "src"] =
      ⟨[], [], End.nilDereference⟩ :=
  ⟨by decide, by decide,
    parse_aborts_on_stat_error sampleHost ["path/filepath"] ["/etc/passwd", "src"] [] []
      "/etc/passwd/src/path/filepath"
      ⟨"stat /etc/passwd/src/path/filepath: not a directory", false⟩
      (by decide) (by simp) (by decide) rfl⟩

/-- Apart from that abort, `parse` checks before it parses: with every path
an existing directory it goes on to the second loop, and with a first path
that is a plain file or does not exist, after directories only, it returns the
error naming that path and parses nothing. -/
theorem parse_validates_first (H : Host) (p : PackageList) (pfx : List String) :
    ((∀ x ∈ PackageList.withPrefix H p pfx,
        ∃ fi, H.stat x = (some fi, none) ∧ fi.isDir = true) →
      PackageList.parse H p pfx = parseDirs H (PackageList.withPrefix H p pfx)) ∧
    (∀ pre post d, PackageList.withPrefix H p pfx = pre ++ d :: post →
      (∀ x ∈ pre, ∃ fi, H.stat x = (some fi, none) ∧ fi.isDir = true) →
      ((∃ fi, H.stat d = (some fi, none) ∧ fi.isDir = false) ∨
        (∃ e, H.stat d = (none, some e) ∧ e.isNotExist = true)) →
      PackageList.parse H p pfx =
        ⟨[], [], End.returned
          (some ("invalid package source directory: " ++ H.quote d))⟩) := by
  constructor
  · intro h
    unfold PackageList.parse
    simp only [checkDirs_all_dirs H _ h]
  · intro pre post d hpath hpre hd
    unfold PackageList.parse
    simp only [hpath, checkDirs_first_invalid H pre post d hpre hd]

end Generate

namespace Busygo

/-! ## The dispatch key -/

theorem main_eq_dispatch (L : Lib) (arg0 : String) (rest : List String)
    (v : String) (flagArgs : List String)
    (hparse : L.flagParse (decide (L.base arg0 = baseName)) rest = some (v, flagArgs)) :
    main L arg0 rest =
      dispatch L (decide (L.base arg0 = baseName))
        (dispatchKey (L.base arg0) (if L.base arg0 = baseName then v else "") flagArgs rest).1
        (dispatchKey (L.base arg0) (if L.base arg0 = baseName then v else "") flagArgs rest).2 := by
  unfold main dispatch
  simp only [hparse, decide_eq_true_eq]

theorem dispatch_of_resolved (L : Lib) (fDefined : Bool) (fn : String) (fa : List String)
    (p : functionProp) (hres : (resolve L.lc fn).2.1 = some p) :
    dispatch L fDefined fn fa =
      (render (p.fref.call L.abs fa).1 (p.fref.call L.abs fa).2, Exit.returned) := by
  have hok := resolve_ok L.lc fn
  rw [hres] at hok
  unfold dispatch
  generalize resolve L.lc fn = r at hres hok
  obtain ⟨pkg, prop, ok⟩ := r
  simp only at hres hok
  subst hres
  simp only [Option.isSome_some] at hok
  subst hok
  simp [Output.empty_append]

/-- C17.  With `argf` the value of the selector `-f` (bound only when the
process runs as `busygo`, and empty otherwise): when `argf` is not empty,
`main` resolves `argf` and passes `flag.Args()`, whatever the base name of the
executable is; when it is empty, `main` resolves the base name of `argv[0]`
and passes every argument after `argv[0]`. -/
theorem main_dispatch_key (L : Lib) (arg0 : String) (rest : List String)
    (v : String) (flagArgs : List String)
    (hparse : L.flagParse (decide (L.base arg0 = baseName)) rest = some (v, flagArgs)) :
    ((if L.base arg0 = baseName then v else "") ≠ "" →
      main L arg0 rest =
        dispatch L (decide (L.base arg0 = baseName))
          (if L.base arg0 = baseName then v else "") flagArgs) ∧
    ((if L.base arg0 = baseName then v else "") = "" →
      main L arg0 rest =
        dispatch L (decide (L.base arg0 = baseName)) (L.base arg0) rest) := by
  rw [main_eq_dispatch L arg0 rest v flagArgs hparse]
  constructor
  · intro h
    have h2 : "" ≠ (if L.base arg0 = baseName then v else "") := fun e => h e.symm
    simp only [dispatchKey, if_pos h2]
  · intro h
    simp only [dispatchKey, h, ne_eq, not_true_eq_false, if_false]

/-- The run `busygo -f abs x`: the selector `abs` is resolved and gets the
argument `x`. -/
theorem main_dispatch_key_witness :
    sampleLib.flagParse (decide (sampleLib.base "busygo" = baseName)) ["-f", "abs", "x"] =
      some ("abs", ["x"]) ∧
    (if sampleLib.base "busygo" = baseName then "abs" else "") ≠ "" ∧
    main sampleLib "busygo" ["-f", "abs", "x"] = dispatch sampleLib true "abs" ["x"] ∧
    main sampleLib "busygo" ["-f", "abs", "x"] = (⟨"/abs/x\n", ""⟩, Exit.returned) :=
  ⟨by decide, by decide,
    (main_dispatch_key sampleLib "busygo" ["-f", "abs", "x"] "abs" ["x"] (by decide)).1
      (by decide),
    by decide⟩

/-! ## The implementations -/

theorem filepath_AbsLoop_ok (abs : String → Except String String) (xs ys : List String)
    (h : List.Forall₂ (fun x y => abs x = .ok y) xs ys) (ret : List String) :
    filepath_AbsLoop abs ret xs = (some (ret ++ ys), none) := by
  induction h generalizing ret with
  | nil => simp [filepath_AbsLoop]
  | cons hxy _ ih =>
    rw [filepath_AbsLoop, hxy]
    simp only
    rw [ih, List.append_assoc]
    rfl

theorem filepath_AbsLoop_error (abs : String → Except String String)
    (pre ys : List String) (x : String) (post : List String) (e : String)
    (hpre : List.Forall₂ (fun x y => abs x = .ok y) pre ys) (hx : abs x = .error e)
    (ret : List String) :
    filepath_AbsLoop abs ret (pre ++ x :: post) = (none, some e) := by
  induction hpre generalizing ret with
  | nil => simp [filepath_AbsLoop, hx]
  | cons hxy _ ih =>
    rw [List.cons_append, filepath_AbsLoop, hxy]
    exact ih _

theorem filepath_AbsLoop_no_partial (abs : String → Except String String)
    (xs ret : List String) (h : (filepath_AbsLoop abs ret xs).2 ≠ none) :
    (filepath_AbsLoop abs ret xs).1 = none := by
  induction xs generalizing ret with
  | nil => simp [filepath_AbsLoop] at h
  | cons x rest ih =>
    rw [filepath_AbsLoop] at h ⊢
    cases hx : abs x with
    | error e => simp
    | ok a =>
      rw [hx] at h
      exact ih _ h

theorem forall₂_of_all_ok (abs : String → Except String String) (xs : List String)
    (h : ∀ x ∈ xs, ∃ y, abs x = .ok y) :
    ∃ ys, List.Forall₂ (fun x y => abs x = .ok y) xs ys := by
  induction xs with
  | nil => exact ⟨[], List.Forall₂.nil⟩
  | cons x rest ih =>
    obtain ⟨y, hy⟩ := h x (List.mem_cons_self _ _)
    obtain ⟨ys, hys⟩ := ih (fun z hz => h z (List.mem_cons_of_mem _ hz))
    exact ⟨y :: ys, List.Forall₂.cons hy hys⟩

/-- C18.  `filepath_Abs` is all-or-nothing.  When `abs` succeeds on every
element, the result is the list of the values of `abs`, element by element and
of the same length, with a nil error; when `abs` fails on an element after
succeeding on those before it, the result is nil with the error of that
element; a non-nil error never comes with a non-nil result. -/
theorem filepath_Abs_all_or_nothing (abs : String → Except String String)
    (xs : List String) :
    (∀ ys, List.Forall₂ (fun x y => abs x = .ok y) xs ys →
      filepath_Abs abs xs = (some ys, none) ∧ ys.length = xs.length) ∧
    ((∀ x ∈ xs, ∃ y, abs x = .ok y) →
      ∃ ys, List.Forall₂ (fun x y => abs x = .ok y) xs ys ∧
        filepath_Abs abs xs = (some ys, none)) ∧
    (∀ pre ys x post e, xs = pre ++ x :: post →
      List.Forall₂ (fun x y => abs x = .ok y) pre ys → abs x = .error e →
      filepath_Abs abs xs = (none, some e)) ∧
    ((filepath_Abs abs xs).2 ≠ none → (filepath_Abs abs xs).1 = none) := by
  refine ⟨?_, ?_, ?_, ?_⟩
  · intro ys h
    refine ⟨?_, h.length_eq.symm⟩
    unfold filepath_Abs
    rw [filepath_AbsLoop_ok abs xs ys h []]
    rfl
  · intro h
    obtain ⟨ys, hys⟩ := forall₂_of_all_ok abs xs h
    refine ⟨ys, hys, ?_⟩
    unfold filepath_Abs
    rw [filepath_AbsLoop_ok abs xs ys hys []]
    rfl
  · intro pre ys x post e hxs hpre hx
    unfold filepath_Abs
    rw [hxs]
    exact filepath_AbsLoop_error abs pre ys x post e hpre hx []
  · exact filepath_AbsLoop_no_partial abs xs []

/-- The input `["a", "", "b"]` when `abs` fails on the empty path only: the
error of the second element and no result. -/
theorem filepath_Abs_all_or_nothing_witness :
    filepath_Abs (fun p => if p = "" then .error "getwd: no such file or directory"
      else .ok ("/abs/" ++ p)) ["a", "", "b"] =
      (none, some "getwd: no such file or directory") :=
  (filepath_Abs_all_or_nothing (fun p => if p = "" then
      .error "getwd: no such file or directory" else .ok ("/abs/" ++ p))
    ["a", "", "b"]).2.2.1 ["a"] ["/abs/a"] "" ["b"] "getwd: no such file or directory" rfl
    (List.Forall₂.cons rfl List.Forall₂.nil) rfl

theorem resolveIn_some {lc : Char → Char} {name pkg : String} {fs : List Package}
    {f : functionProp} (h : (resolveIn lc name pkg fs).2.1 = some f) :
    ∃ pk ∈ fs, f ∈ pk.prop ∧ strings.ToLower lc f.name = name := by
  induction fs with
  | nil => simp [resolveIn] at h
  | cons g gs ih =>
    unfold resolveIn at h
    dsimp only at h
    split at h
    · split at h
      · next q hq =>
        simp only [Option.some.injEq] at h
        subst h
        exact ⟨g, List.mem_cons_self _ _, (lookupName_some hq).1, (lookupName_some hq).2⟩
      · obtain ⟨pk, hpk, hrest⟩ := ih h
        exact ⟨pk, List.mem_cons_of_mem _ hpk, hrest⟩
    · obtain ⟨pk, hpk, hrest⟩ := ih h
      exact ⟨pk, List.mem_cons_of_mem _ hpk, hrest⟩

theorem resolve_some_mem {lc : Char → Char} {q : String} {f : functionProp}
    (h : (resolve lc q).2.1 = some f) :
    (∃ pk ∈ functions, f ∈ pk.prop) ∧
    strings.ToLower lc f.name = strings.ToLower lc ((strings.Split q ".").getLastD "") := by
  unfold resolve at h
  split at h
  · simp at h
  · next name pkg hnp =>
    obtain ⟨pk, hpk, hf, hname⟩ := resolveIn_some h
    have hn := nameAndPkg_name hnp
    simp only at hn
    exact ⟨⟨pk, hpk, hf⟩, by rw [hname, hn]⟩

theorem call_stub (r : FuncRef) (hr : r ≠ FuncRef.filepath_Abs)
    (abs : String → Except String String) (args : List String) :
    r.call abs args = (some [], none) := by
  cases r <;> first | exact absurd rfl hr | rfl

theorem registered_fref : ∀ p ∈ registered,
    (p.fref = FuncRef.filepath_Abs ↔ p.name = "Abs") := by
  decide

/-- C19.  Every registered function other than `Abs` has an implementation
that returns the empty list and a nil error whatever its arguments are;
nothing is rendered for that result, and a run of `main` that resolves to
such a function writes nothing and returns.  These are the sixteen functions
`Base` to `VolumeName`. -/
theorem stubs_return_nothing (p : functionProp) (hp : p ∈ registered)
    (hname : p.name ≠ "Abs") :
    (∀ (abs : String → Except String String) (args : List String),
      p.fref.call abs args = (some [], none)) ∧
    render (some []) none = Output.empty ∧
    (∀ (L : Lib) (arg0 : String) (rest : List String) (v : String) (flagArgs : List String),
      L.flagParse (decide (L.base arg0 = baseName)) rest = some (v, flagArgs) →
      (resolve L.lc (dispatchKey (L.base arg0)
        (if L.base arg0 = baseName then v else "") flagArgs rest).1).2.1 = some p →
      main L arg0 rest = (Output.empty, Exit.returned)) ∧
    (registered.filter (fun q => decide (q.name ≠ "Abs"))).map (fun q => q.name) =
      ["Base", "Clean", "Dir", "EvalSymlinks", "Ext", "FromSlash", "Glob", "HasPrefix",
        "IsAbs", "Join", "Match", "Rel", "Split", "SplitList", "ToSlash", "VolumeName"] := by
  have hr : p.fref ≠ FuncRef.filepath_Abs := fun e => hname ((registered_fref p hp).1 e)
  refine ⟨fun abs args => call_stub p.fref hr abs args, by decide, ?_, by decide⟩
  intro L arg0 rest v flagArgs hparse hres
  rw [main_eq_dispatch L arg0 rest v flagArgs hparse,
    dispatch_of_resolved L _ _ _ p hres, call_stub p.fref hr]
  have : render (some []) none = Output.empty := by decide
  simp only [this]

/-- The run `join a b`: nothing is written. -/
theorem stubs_return_nothing_witness :
    (⟨"Join", "elem ...string", false, "string", .filepath_Join⟩ : functionProp) ∈ registered ∧
    (⟨"Join", "elem ...string", false, "string", .filepath_Join⟩ : functionProp).name ≠ "Abs" ∧
    main sampleLib "join" ["a", "b"] = (Output.empty, Exit.returned) :=
  ⟨by decide, by decide,
    (stubs_return_nothing ⟨"Join", "elem ...string", false, "string", .filepath_Join⟩
      (by decide) (by decide)).2.2.1 sampleLib "join" ["a", "b"] "" ["a", "b"]
      (by decide) (by decide)⟩

/-! ## Formatted lists are never empty -/

theorem splitAux_ne_nil (sep : List Char) (l : List Char) (skip : Nat) (cur : List Char) :
    strings.splitAux sep skip cur l ≠ [] := by
  induction l generalizing skip cur with
  | nil => simp [strings.splitAux]
  | cons c cs ih =>
    cases skip with
    | zero =>
      rw [strings.splitAux]
      split
      · simp
      · exact ih _ _
    | succ n =>
      rw [strings.splitAux]
      exact ih _ _

theorem Split_comma_ne_nil (s : String) : strings.Split s ", " ≠ [] := by
  have hsep : ¬ (", ".data = []) := by decide
  unfold strings.Split
  rw [if_neg hsep]
  intro h
  exact splitAux_ne_nil _ _ _ _ (List.map_eq_nil_iff.1 h)

theorem formatArg_length_pos (s : String) : 1 ≤ (formatArg s).length := by
  unfold formatArg
  dsimp only
  split <;> simp

theorem formatAll_length_pos (l : List String) (h : l ≠ []) : 1 ≤ (formatAll l).length := by
  cases l with
  | nil => exact absurd rfl h
  | cons a rest =>
    have ha := formatArg_length_pos a
    rw [formatAll]
    simp only [gt_iff_lt, List.length_append]
    rw [if_pos (by omega)]
    omega

/-- C20.  For every `functionProp`, `args()` and `returns()` hold at least
one token; with an empty return signature `returns()` is `[""]`; so when
`printUsage` prints the usage of a resolved function, the line `returns:`
is always part of it. -/
theorem args_returns_nonempty (p : functionProp) :
    1 ≤ p.args.length ∧ 1 ≤ p.returns.length ∧
    (p.retp = "" → p.returns = [""]) ∧
    formatArg "" = [""] ∧
    (∀ (L : Lib) (fDefined : Bool) (as pkg : String), as ≠ baseName →
      resolve L.lc as = (pkg, some p, true) →
      (printUsage L fDefined as).stdout =
        "Usage of (" ++ L.quote pkg ++ ") " ++ strings.ToLower L.lc p.name ++ ":\n" ++
          "\t" ++ strings.ToLower L.lc p.name ++ " " ++ strings.Join p.args " " ++ "\n" ++
          ("\t\treturns: " ++ strings.Join p.returns ", " ++ "\n")) := by
  have hret : 1 ≤ p.returns.length := by
    unfold functionProp.returns
    exact formatAll_length_pos _ (Split_comma_ne_nil _)
  refine ⟨?_, hret, ?_, by decide, ?_⟩
  · unfold functionProp.args
    have := formatAll_length_pos _ (Split_comma_ne_nil p.argp)
    split
    · rw [List.length_append]
      omega
    · exact this
  · intro h
    unfold functionProp.returns
    rw [h]
    decide
  · intro L fDefined as pkg has hres
    unfold printUsage
    rw [hres]
    have hpos : p.returns.length > 0 := hret
    simp [has, hpos]

/-- The usage of `base` under the sample library. -/
theorem args_returns_nonempty_witness :
    "base" ≠ baseName ∧
    resolve sampleLib.lc "base" =
      ("path/filepath", some ⟨"Base", "path string", false, "string", .filepath_Base⟩, true) ∧
    (printUsage sampleLib false "base").stdout =
      "Usage of (\"path/filepath\") base:\n\tbase path\n\t\treturns: string\n" :=
  ⟨by decide, by decide,
    ((args_returns_nonempty ⟨"Base", "path string", false, "string", .filepath_Base⟩).2.2.2.2
      sampleLib false "base" "path/filepath" (by decide) (by decide)).trans (by decide)⟩

/-! ## The registry invariant -/

theorem functions_names_nodup_ascii : ∀ pk ∈ functions,
    (pk.prop.map (fun f => strings.ToLower asciiLower f.name)).Nodup := by
  decide

theorem functions_names_nodup (lc : Char → Char)
    (hA : ∀ c : Char, c.toNat < 128 → lc c = asciiLower c) (pk : Package)
    (hpk : pk ∈ functions) :
    (pk.prop.map (fun f => strings.ToLower lc f.name)).Nodup := by
  have hmap : pk.prop.map (fun f => strings.ToLower lc f.name) =
      pk.prop.map (fun f => strings.ToLower asciiLower f.name) := by
    apply List.map_congr_left
    intro f hf
    exact ToLower_ascii lc hA f.name ((functions_ascii pk hpk).2 f hf)
  rw [hmap]
  exact functions_names_nodup_ascii pk hpk

/-- C15.  Within each package of the registry the lowercased function names
are pairwise distinct; hence, when `resolve` returns the entry `f` for a
query, `f` is the only entry of its package whose lowercased name is the
lowercased name of the query. -/
theorem registry_names_distinct (lc : Char → Char)
    (hA : ∀ c : Char, c.toNat < 128 → lc c = asciiLower c) :
    (∀ pk ∈ functions, (pk.prop.map (fun f => strings.ToLower lc f.name)).Nodup) ∧
    (∀ pk ∈ functions, ∀ f ∈ pk.prop, ∀ g ∈ pk.prop,
      strings.ToLower lc f.name = strings.ToLower lc g.name → f = g) ∧
    (∀ (q : String) (f : functionProp), (resolve lc q).2.1 = some f →
      (∃ pk ∈ functions, f ∈ pk.prop) ∧
      ∀ pk ∈ functions, f ∈ pk.prop → ∀ g ∈ pk.prop,
        strings.ToLower lc g.name =
          strings.ToLower lc ((strings.Split q ".").getLastD "") → g = f) := by
  have hinj : ∀ pk ∈ functions, ∀ f ∈ pk.prop, ∀ g ∈ pk.prop,
      strings.ToLower lc f.name = strings.ToLower lc g.name → f = g := by
    intro pk hpk f hf g hg hfg
    exact List.inj_on_of_nodup_map (functions_names_nodup lc hA pk hpk) hf hg hfg
  refine ⟨functions_names_nodup lc hA, hinj, ?_⟩
  intro q f hres
  obtain ⟨hmem, hname⟩ := resolve_some_mem hres
  refine ⟨hmem, ?_⟩
  intro pk hpk hf g hg hgn
  exact hinj pk hpk g hg f hf (hgn.trans hname.symm)

/-- The query `FILEPATH.ABS` under ASCII lowercasing: `Abs` is returned and
is the only entry named `abs` after lowercasing. -/
theorem registry_names_distinct_witness :
    (∀ c : Char, c.toNat < 128 → asciiLower c = asciiLower c) ∧
    (resolve asciiLower "FILEPATH.ABS").2.1 =
      some ⟨"Abs", "path string", true, "string, error", .filepath_Abs⟩ ∧
    ∀ pk ∈ functions,
      (⟨"Abs", "path string", true, "string, error", .filepath_Abs⟩ : functionProp) ∈ pk.prop →
      ∀ g ∈ pk.prop, strings.ToLower asciiLower g.name =
        strings.ToLower asciiLower ((strings.Split "FILEPATH.ABS" ".").getLastD "") →
        g = ⟨"Abs", "path string", true, "string, error", .filepath_Abs⟩ :=
  ⟨fun _ _ => rfl, by decide,
    ((registry_names_distinct asciiLower (fun _ _ => rfl)).2.2 "FILEPATH.ABS"
      ⟨"Abs", "path string", true, "string, error", .filepath_Abs⟩ (by decide)).2⟩

end Busygo
